import Mathlib

/-!
# Verification of `WorkflowParser` (kfp-tekton frontend)

Shallow embedding of `src/frontend/src/lib/WorkflowParser.ts` and proofs of
the specification's claims about it.

Modelling conventions:
* JavaScript strings are Lean `String`s; the handful of string operations the
  source uses (`substring`, `indexOf`, `split`, `startsWith`, `substr`,
  `join`, `replace`) are re-implemented below over `List Char` so that the
  kernel can evaluate them on concrete inputs.  All inputs relevant to the
  claims are ASCII, where JS UTF-16 indexing and Lean character indexing
  coincide.
* A field a JS object may lack (`undefined`) is an `Option`; JS `a || b`
  on strings is `jsOrS` (both `undefined` and `''` fall back).
* The `dagre` graph is modelled by the list of `setNode` identifiers and the
  list of `setEdge` pairs; the graph's node/edge *sets* (graphlib
  de-duplicates) are `Finset`s derived from those lists.
-/

namespace WorkflowParser

/-! ## JS string primitives -/

/-- `p` is a leading segment of `s` (char lists).  Used to model both
`String.prototype.startsWith` and substring search. -/
def leadsChars : List Char → List Char → Bool
  | [], _ => true
  | _ :: _, [] => false
  | p :: ps, c :: cs => p == c && leadsChars ps cs

/-- JS `s.startsWith(p)`. -/
def jsStartsWith (s p : String) : Bool :=
  leadsChars p.data s.data

/-- Split a char list at every occurrence of the character `sep`
(JS `String.prototype.split` with a one-character separator; every
separator position yields a boundary, so `"a..b"` gives `["a","","b"]`
and `""` gives `[""]`). -/
def splitCharAux (sep : Char) : List Char → List Char → List (List Char)
  | [], cur => [cur.reverse]
  | c :: rest, cur =>
    if c == sep then cur.reverse :: splitCharAux sep rest []
    else splitCharAux sep rest (c :: cur)

/-- JS `s.split(sep)` for a one-character separator (the source only ever
splits on `'.'`, `','` and `'/'`). -/
def jsSplitChar (s : String) (sep : Char) : List String :=
  (splitCharAux sep s.data []).map (fun l => ⟨l⟩)

/-- Index of the first occurrence of `pat` in `s` starting from offset `i`,
as an `Option`. -/
def idxAux (pat : List Char) : List Char → Nat → Option Nat
  | [], i => if pat.isEmpty then some i else none
  | c :: rest, i =>
    if leadsChars pat (c :: rest) then some i else idxAux pat rest (i + 1)

/-- JS `s.indexOf(pat)`: the offset of the first occurrence of the substring
`pat`, or `-1` when there is none. -/
def jsIndexOf (s pat : String) : Int :=
  match idxAux pat.data s.data 0 with
  | some n => (n : Int)
  | none => -1

/-- JS `s.substring(a, b)`: both indices are clamped into `[0, length]` and
swapped when `a > b` (`Int.toNat` sends a negative index to `0`). -/
def jsSubstring2 (s : String) (a b : Int) : String :=
  let n : Nat := s.data.length
  let a' : Nat := min a.toNat n
  let b' : Nat := min b.toNat n
  ⟨(s.data.drop (min a' b')).take (max a' b' - min a' b')⟩

/-- JS `s.substring(a)` (one-argument form: up to the end of the string). -/
def jsSubstring1 (s : String) (a : Int) : String :=
  jsSubstring2 s a (s.data.length : Int)

/-- JS `array.join(sep)`. -/
def jsJoin (sep : String) : List String → String
  | [] => ""
  | [x] => x
  | x :: y :: rest => x ++ sep ++ jsJoin sep (y :: rest)

/-- JS `a || b` where `a` is a possibly-missing string field: both
`undefined` and the empty string fall back to `b`. -/
def jsOrS (a : Option String) (b : String) : String :=
  match a with
  | some s => if s == "" then b else s
  | none => b

/-- JS `s.replace(pat, repl)` with a string pattern: replaces only the
*first* occurrence. -/
def jsReplaceFirst (s pat repl : String) : String :=
  match idxAux pat.data s.data 0 with
  | none => s
  | some i => ⟨(s.data.take i) ++ repl.data ++ (s.data.drop (i + pat.data.length))⟩

/-! ## `decodeParam` (lines 279–300) -/

/-- The object `decodeParam` returns.  JS distinguishes an absent field
(`undefined`, modelled `none`) from a field holding `''` (modelled
`some ""`); every consumer of the result tests the fields only for JS
truthiness, captured by `ParamRef.taskTruthy` below. -/
structure ParamRef where
  task : Option String
  param : Option String
deriving DecidableEq, Repr

/-- JS truthiness of `ref.task`: `undefined` and `''` are falsy.  The source
branches on `splitParam.task` / `!splitParam.task` exactly through this
test, so "`task` unset" in the specification means `taskTruthy = false`. -/
def ParamRef.taskTruthy (r : ParamRef) : Bool :=
  match r.task with
  | some t => t != ""
  | none => false

/-- JS truthiness of `ref.param`. -/
def ParamRef.paramTruthy (r : ParamRef) : Bool :=
  match r.param with
  | some p => p != ""
  | none => false

/-- `decodeParam` (lines 279–300), translated clause by clause:
pipeline-parameter shape first (`substring(0,9) === '$(params.'` and last
character `')'`), then the dotted shape (`indexOf('$(') !== -1 &&
indexOf(')') !== -1`), else the empty object `{}`.  In the dotted branch
`paramSplit[1]` may be `undefined` (modelled `none`) and the last segment
always exists (`split` never returns an empty array). -/
def decodeParam (paramString : String) : ParamRef :=
  if jsSubstring2 paramString 0 9 == "$(params." &&
      jsSubstring1 paramString ((paramString.data.length : Int) - 1) == ")" then
    let paramName := jsSubstring2 paramString 9 ((paramString.data.length : Int) - 1)
    { task := some "", param := some paramName }
  else if jsIndexOf paramString "$(" != -1 && jsIndexOf paramString ")" != -1 then
    let paramSplit := jsSplitChar paramString '.'
    let parentTask := paramSplit[1]?
    let lastSeg := paramSplit.getLastD ""
    let paramName := jsSubstring2 lastSeg 0 ((lastSeg.data.length : Int) - 1)
    { task := parentTask, param := some paramName }
  else
    { task := none, param := none }

/-! ## `parseStoragePath` (lines 598–644) -/

inductive StorageService where
  | gcs | http | https | minio | s3 | volume
deriving DecidableEq, Repr

structure StoragePath where
  source : StorageService
  bucket : String
  key : String
deriving DecidableEq, Repr

/-- One branch of `parseStoragePath`: drop the scheme, split the
remainder on `'/'`, take the first segment as the bucket and re-join the
rest as the key (`pathParts.slice(1).join('/')`). -/
def storagePathOf (svc : StorageService) (schemeLen : Nat) (strPath : String) : StoragePath :=
  let pathParts := jsSplitChar ⟨strPath.data.drop schemeLen⟩ '/'
  { source := svc
    bucket := pathParts.headD ""
    key := jsJoin "/" (pathParts.drop 1) }

/-- `parseStoragePath` (lines 598–644).  The source `throw`s on an
unrecognized scheme; the model returns `Except.error` with the thrown
message. -/
def parseStoragePath (strPath : String) : Except String StoragePath :=
  if jsStartsWith strPath "gs://" then
    .ok (storagePathOf .gcs 5 strPath)
  else if jsStartsWith strPath "minio://" then
    .ok (storagePathOf .minio 8 strPath)
  else if jsStartsWith strPath "s3://" then
    .ok (storagePathOf .s3 5 strPath)
  else if jsStartsWith strPath "http://" then
    .ok (storagePathOf .http 7 strPath)
  else if jsStartsWith strPath "https://" then
    .ok (storagePathOf .https 8 strPath)
  else if jsStartsWith strPath "volume://" then
    .ok (storagePathOf .volume 9 strPath)
  else
    .error ("Unsupported storage path: " ++ strPath)

/-! ## Data model for `createRuntimeGraph` (lines 45–219)

Typed counterpart of the untyped status document, restricted to the fields
the function reads.  `Option` marks fields that may be `undefined` in the
document.  Fields the graph logic never reads (display metadata such as
`startTime`, `completionTime`, labels, colors) are omitted: the claims are
about the node/edge structure. -/

/-- One entry of a record's `status.conditions` array. -/
structure Cond where
  condType : String
  reason : String
deriving DecidableEq, Repr

/-- One entry of `status.taskResults`. -/
structure TaskResult where
  name : String
  value : String
deriving DecidableEq, Repr

/-- One entry of `status.taskSpec.params` (the list the algorithm writes
resolved values back into). -/
structure StatusParam where
  name : String
  value : String
deriving DecidableEq, Repr

/-- A record's `status.taskSpec`. -/
structure RecTaskSpec where
  params : List StatusParam
deriving DecidableEq, Repr

/-- The nested `status` object of a task-run / custom-run record.  `podName`
may be absent (custom run records) or empty; `conditions` may be absent. -/
structure RecStatus where
  podName : Option String
  conditions : Option (List Cond)
  taskResults : Option (List TaskResult)
  taskSpec : Option RecTaskSpec
deriving DecidableEq, Repr

/-- One record of `status.taskRuns` / `status.runs`.  `taskRunId` is the
field the algorithm itself injects (lines 78 and 85). -/
structure RunRecord where
  pipelineTaskName : String
  status : Option RecStatus
  taskRunId : Option String
deriving DecidableEq, Repr

/-- One entry of a task's `params` list.  `value` is a string: when it is
`undefined` in the document the source crashes inside `decodeParam`
(`undefined.substring`), so documents reaching the edge logic carry
strings here. -/
structure TaskParam where
  name : String
  value : String
deriving DecidableEq, Repr

/-- One entry of a task's `when` list. -/
structure WhenClause where
  input : String
deriving DecidableEq, Repr

/-- One entry of a task's `conditions` list (a condition guard: it has a
`conditionRef` and `params`, but no `name`). -/
structure CondGuard where
  conditionRef : String
  params : List TaskParam
deriving DecidableEq, Repr

/-- A nested step of `task.taskSpec.steps`. -/
structure StepSpec where
  command : Option (List String)
  args : Option (List String)
deriving DecidableEq, Repr

/-- The inline `task.taskSpec` (step list, plus the metadata labels used by
the artifact resolver's cache check). -/
structure TaskSpecDecl where
  steps : Option (List StepSpec)
  metadataLabels : Option (List (String × String))
deriving DecidableEq, Repr

/-- A declared pipeline task. -/
structure Task where
  name : String
  params : List TaskParam
  whenClauses : List WhenClause
  conditions : List CondGuard
  runAfter : Option (List String)
  taskSpec : Option TaskSpecDecl
deriving DecidableEq, Repr

/-- `spec.params` entry. -/
structure PipelineParam where
  name : String
  value : String
deriving DecidableEq, Repr

/-- `spec.pipelineSpec`: the declared `tasks` and `finally` lists (the JS
key `finally` is `finallyTasks` here).  An absent list is `[]` (the source
reads both through `|| []`). -/
structure PipelineSpec where
  tasks : List Task
  finallyTasks : List Task
deriving DecidableEq, Repr

structure Spec where
  params : List PipelineParam
  pipelineSpec : PipelineSpec
deriving DecidableEq, Repr

/-- The document's `status` object.  `taskRuns` and `runs` are JS objects
keyed by run id, modelled as association lists in the object's
property-enumeration order (`Object.getOwnPropertyNames`).  An absent
object is `none`.  (`skippedTasks` only affects a node's displayed phase,
which is outside the modelled output.) -/
structure WStatus where
  taskRuns : Option (List (String × RunRecord))
  runs : Option (List (String × RunRecord))
deriving DecidableEq, Repr

structure Workflow where
  spec : Spec
  status : WStatus
deriving DecidableEq, Repr

/-- An edge committed to the graph.  The parent of a parameter / `runAfter`
edge is read straight off `status.podName` and may therefore be JS
`undefined` (`none`); graphlib stringifies it to the node key
`"undefined"`, which the `Option` keeps distinguishable from every task
name. -/
structure REdge where
  parent : Option String
  child : Option String
deriving DecidableEq, Repr

/-! ## The status index (lines 76–91) -/

/-- The `statusMap` lookup.  The map is populated from `status.taskRuns`
and then `status.runs`, keyed by `pipelineTaskName`, skipping records
without a `status`; a later `set` overwrites an earlier one, so the lookup
returns the **last** qualifying record in `taskRuns ++ runs` order,
together with its (present) `status`. -/
def smGet (st : WStatus) (name : String) : Option (RunRecord × RecStatus) :=
  (((st.taskRuns.getD []) ++ (st.runs.getD [])).filterMap (fun pr =>
    match pr.2.status with
    | some rst => if pr.2.pipelineTaskName == name then some (pr.2, rst) else none
    | none => none)).getLast?

/-- `statusMap.get(x)` where `x` itself may be `undefined` (e.g.
`condition['name']` of a condition guard). -/
def smGetO (st : WStatus) (name : Option String) : Option (RunRecord × RecStatus) :=
  name.bind (smGet st)

/-- Lines 77–78 and 84–85: `status[id]['taskRunId'] = id` for every record
of both collections (the only mutation performed while the index is
built). -/
def injectIds (st : WStatus) : WStatus :=
  { taskRuns := st.taskRuns.map (List.map (fun pr => (pr.1, { pr.2 with taskRunId := some pr.1 })))
    runs := st.runs.map (List.map (fun pr => (pr.1, { pr.2 with taskRunId := some pr.1 }))) }

/-- Update the last element of a list satisfying `p` (there is at most one
JS object a `statusMap` key designates: the last qualifying record). -/
def updateLast (p : α → Bool) (f : α → α) : List α → List α
  | [] => []
  | x :: xs =>
    if xs.any p then x :: updateLast p f xs
    else if p x then f x :: xs
    else x :: xs

/-- Apply `f` to the record object that `statusMap.get(name)` designates
(the map holds references into the document, so a mutation through the map
is a mutation of the matching record inside `status.taskRuns`/`status.runs`;
`runs` entries are inserted after `taskRuns` entries and therefore win). -/
def updateDesignated (st : WStatus) (name : String) (f : RunRecord → RunRecord) : WStatus :=
  let p : String × RunRecord → Bool := fun pr =>
    pr.2.status.isSome && pr.2.pipelineTaskName == name
  let f2 : String × RunRecord → String × RunRecord := fun pr => (pr.1, f pr.2)
  if (st.runs.getD []).any p then { st with runs := st.runs.map (updateLast p f2) }
  else if (st.taskRuns.getD []).any p then
    { st with taskRuns := st.taskRuns.map (updateLast p f2) }
  else st

/-! ## `checkParams` (lines 221–277) -/

/-- The `component` argument of `checkParams`: either a task (has a `name`,
no `conditionRef`) or a condition guard (has a `conditionRef`, no
`name`). -/
structure Component where
  name : Option String
  conditionRef : Option String
  params : List TaskParam
deriving DecidableEq, Repr

def Task.toComponent (t : Task) : Component :=
  { name := some t.name, conditionRef := none, params := t.params }

def CondGuard.toComponent (c : CondGuard) : Component :=
  { name := none, conditionRef := some c.conditionRef, params := c.params }

/-- `conditions && conditions[0]['type'] === 'Succeeded'` (line 253–255)
and `conditions[0]['type'] === 'Succeeded'` (line 182).  When the
conditions array is empty (both sites) or absent (the `runAfter` site,
line 182, performs no presence check) the source throws a `TypeError` and
returns no graph at all; the model yields `false`, which never adds an
edge the source would produce. -/
def firstCondSucceeded (rst : RecStatus) : Bool :=
  match rst.conditions with
  | some (c :: _) => c.condType == "Succeeded"
  | _ => false

/-- Lines 228–235: the `componentId`.  For a condition call
(`ownerTask ≠ ''`) it is the guard's `conditionRef`; otherwise the
record's `podName` when present and non-empty, else the component's
`name`. -/
def componentIdOf (st : WStatus) (component : Component) (ownerTask : String) : Option String :=
  if ownerTask != "" then component.conditionRef
  else
    match smGetO st component.name with
    | some (_, rst) =>
      match rst.podName with
      | some p => if p != "" then some p else component.name
      | none => component.name
    | none => component.name

/-- Lines 266–273: write the resolved `paramValue` onto every
`status.taskSpec.params` entry of the component's own record whose name
matches `pname`. -/
def setStatusParam (pname v : String) (r : RunRecord) : RunRecord :=
  { r with status := r.status.map (fun rst =>
      { rst with taskSpec := rst.taskSpec.map (fun ts =>
          { ts with params := ts.params.map (fun sp =>
              if sp.name == pname then { sp with value := v } else sp) }) }) }

/-- The body of `checkParams`' `for (const param of component['params'])`
loop: decode the value expression, resolve the value (pipeline parameter or
upstream result), push an edge when the upstream parent's first condition
succeeded, and write the resolved value back onto the component's own
record.  The state is the document's `status` object, mutated in place by
the write-back. -/
def cpParamStep (pipelineParams : List PipelineParam) (component : Component)
    (ownerTask : String) (childId : Option String)
    (acc : List REdge × WStatus) (param : TaskParam) : List REdge × WStatus :=
  let edges := acc.1
  let st := acc.2
  let splitParam := decodeParam param.value
  let step :=
    if !splitParam.taskTruthy then
      -- lines 244–247: pipeline-parameter (or literal) branch, no edge
      (edges,
       pipelineParams.foldl (fun v pp =>
         if splitParam.param == some pp.name then pp.value else v) param.value)
    else
      -- lines 249–264: upstream-result branch
      match splitParam.task with
      | some parentTask =>
        (match smGet st parentTask with
         | some (_, rst) =>
           if firstCondSucceeded rst then
             (edges ++ [{ parent := rst.podName
                          child := if ownerTask == "" then childId else some ownerTask }],
              (rst.taskResults.getD []).foldl (fun v res =>
                if splitParam.param == some res.name then res.value else v) param.value)
           else (edges, param.value)
         | none => (edges, param.value))
      | none => (edges, param.value)
  let st2 :=
    match component.name with
    | some n =>
      (match smGet st n with
       | some (_, rst) =>
         if rst.taskSpec.isSome then updateDesignated st n (setStatusParam param.name step.2)
         else st
       | none => st)
    | none => st
  (step.1, st2)

/-- `checkParams` (lines 221–277): returns the pushed edges and the
status object after the write-backs. -/
def checkParams (st : WStatus) (pipelineParams : List PipelineParam)
    (component : Component) (ownerTask : String) : List REdge × WStatus :=
  let childId := componentIdOf st component ownerTask
  component.params.foldl (cpParamStep pipelineParams component ownerTask childId) ([], st)

/-! ## The remaining edge producers inside the main loop -/

/-- Lines 113–118: the node identity of a task — the record's `podName`
when present and non-empty, else the task's own name. -/
def nodeIdOf (st : WStatus) (name : String) : String :=
  match smGet st name with
  | some (_, rst) =>
    match rst.podName with
    | some p => if p != "" then p else name
    | none => name
  | none => name

/-- Lines 126–136: when-guard edges.  For every `when` clause whose input
decodes to a (truthy) upstream-task reference with a materialized parent,
push an edge whose parent is `podName || pipelineTaskName` — with no
success gating. -/
def whenEdges (st : WStatus) (task : Task) (taskId : String) : List REdge :=
  task.whenClauses.foldl (fun acc c =>
    let param := decodeParam c.input
    if param.taskTruthy then
      match param.task with
      | some t =>
        (match smGet st t with
         | some (rec, rst) =>
           acc ++ [{ parent := some (jsOrS rst.podName rec.pipelineTaskName)
                     child := some taskId }]
         | none => acc)
      | none => acc
    else acc) []

/-- Lines 139–147: the any-task aggregator test:
`taskSpec.steps[0]` exists, has an `args` array, and
`command[0] === 'any-task'` (an empty first command token is falsy and
fails the check, but also differs from `'any-task'`). -/
def isAnyTask (task : Task) : Bool :=
  match task.taskSpec with
  | some ts =>
    match ts.steps with
    | some (step0 :: _) =>
      (match step0.args with
       | some _ =>
         (match step0.command with
          | some (c0 :: _) => c0 == "any-task"
          | _ => false)
       | none => false)
    | _ => false
  | none => false

def anyTaskArgs (task : Task) : List String :=
  match task.taskSpec with
  | some ts =>
    match ts.steps with
    | some (step0 :: _) => (step0.args.getD [])
    | _ => []
  | none => []

/-- One step of the aggregator argument scan (lines 150–175): `--taskList`
and `-c` switch modes; in task-list mode the argument is a comma-separated
parent list, in condition mode the parent name is cut out between the
`results_` and `_output` markers (via JS `substring`, whose clamping and
swapping apply when a marker is missing).  Edges are added for every
parent found in the index, with the `podName || pipelineTaskName` parent
identity and no success gating. -/
def anySeqStep (st : WStatus) (taskId : String)
    (acc : Bool × Bool × List REdge) (arg : String) : Bool × Bool × List REdge :=
  let isNextTaskList := acc.1
  let isNextCondition := acc.2.1
  let es := acc.2.2
  if arg == "--taskList" then (true, isNextCondition, es)
  else if arg == "-c" then (isNextTaskList, true, es)
  else if isNextTaskList then
    (false, isNextCondition,
     (jsSplitChar arg ',').foldl (fun es2 parentTask =>
       match smGet st parentTask with
       | some (rec, rst) =>
         es2 ++ [{ parent := some (jsOrS rst.podName rec.pipelineTaskName)
                   child := some taskId }]
       | none => es2) es)
  else if isNextCondition then
    (isNextTaskList, false,
     let parentTask := jsSubstring2 arg (jsIndexOf arg "results_" + 8) (jsIndexOf arg "_output")
     match smGet st parentTask with
     | some (rec, rst) =>
       es ++ [{ parent := some (jsOrS rst.podName rec.pipelineTaskName)
                child := some taskId }]
     | none => es)
  else acc

def anySeqEdges (st : WStatus) (taskId : String) (args : List String) : List REdge :=
  (args.foldl (anySeqStep st taskId) (false, false, [])).2.2

/-- Lines 178–188: `runAfter` edges.  The parent must be materialized with
its first condition of type `Succeeded`; the parent identity is the
record's `podName` with **no** fallback. -/
def runAfterEdges (st : WStatus) (task : Task) (taskId : String) : List REdge :=
  match task.runAfter with
  | none => []
  | some l =>
    l.foldl (fun acc parentTask =>
      match smGet st parentTask with
      | some (_, rst) =>
        if firstCondSucceeded rst then
          acc ++ [{ parent := rst.podName, child := some taskId }]
        else acc
      | none => acc) []

/-! ## The main loop (lines 93–219) -/

/-- Lines 93–107: names of tasks without a record of their own but with a
`when` clause referencing a materialized upstream task. -/
def conditionTaskNames (st : WStatus) (tasks : List Task) : List String :=
  tasks.foldl (fun acc task =>
    if (smGet st task.name).isSome then acc
    else if task.whenClauses.any (fun c =>
        let p := decodeParam c.input
        p.taskTruthy && (match p.task with
          | some t => (smGet st t).isSome
          | none => false)) then acc ++ [task.name]
    else acc) []

/-- Accumulator of the main loop: `setNode` identifiers, `setEdge` pairs,
and the (mutated) status object. -/
structure GAcc where
  nodes : List String
  edges : List REdge
  st : WStatus
deriving Repr

/-- One iteration of the main loop (lines 109–216) for a single task:
when the task is materialized (own record, or listed among the
condition tasks), compute its node identity, collect the parameter,
condition-guard, when-guard, aggregator and `runAfter` edges, and commit
the node. -/
def processTask (pipelineParams : List PipelineParam) (condNames : List String)
    (acc : GAcc) (task : Task) : GAcc :=
  if (smGet acc.st task.name).isSome || condNames.contains task.name then
    let taskId := nodeIdOf acc.st task.name
    let r1 := checkParams acc.st pipelineParams task.toComponent ""
    let r2 := task.conditions.foldl (fun (p : List REdge × WStatus) cond =>
      let r := checkParams p.2 pipelineParams cond.toComponent taskId
      (p.1 ++ r.1, r.2)) r1
    let e3 := whenEdges r2.2 task taskId
    let e4 := if isAnyTask task then anySeqEdges r2.2 taskId (anyTaskArgs task) else []
    let e5 := runAfterEdges r2.2 task taskId
    { nodes := acc.nodes ++ [taskId]
      edges := acc.edges ++ r2.1 ++ e3 ++ e4 ++ e5
      st := r2.2 }
  else acc

/-- The produced graph: the `setNode` identifiers and the `setEdge`
pairs.  (graphlib stores nodes and edges as sets; the lists are collected
per task here, and only the induced sets `nodeSet`/`edgeSet` below are
compared.) -/
structure RuntimeGraph where
  nodes : List String
  edges : List REdge
deriving DecidableEq, Repr

/-- `createRuntimeGraph` (lines 45–219).  Returns the graph together with
the status document as mutated by the run (the `taskRunId` injection and
the `checkParams` write-backs).  The early return (lines 54–60) fires
exactly when `status.taskRuns` is absent: `Object.keys(status).length === 0`
already implies it. -/
def createRuntimeGraph (w : Workflow) : RuntimeGraph × Workflow :=
  if w.status.taskRuns.isNone then ({ nodes := [], edges := [] }, w)
  else
    let tasks := w.spec.pipelineSpec.tasks ++ w.spec.pipelineSpec.finallyTasks
    let pipelineParams := w.spec.params
    let st0 := injectIds w.status
    let condNames := conditionTaskNames st0 tasks
    let acc := tasks.foldl (processTask pipelineParams condNames)
      { nodes := [], edges := [], st := st0 }
    ({ nodes := acc.nodes, edges := acc.edges }, { w with status := acc.st })

/-- The graph's node set: graphlib's `setEdge` implicitly creates its
endpoints as nodes, and de-duplicates. -/
def nodeSet (g : RuntimeGraph) : Finset (Option String) :=
  ((g.nodes.map some) ++ g.edges.flatMap (fun e => [e.parent, e.child])).toFinset

/-- The graph's edge set (graphlib stores a set of edges, not a
multiset). -/
def edgeSet (g : RuntimeGraph) : Finset REdge :=
  g.edges.toFinset

/-! ## `getNodeInputOutputArtifacts` (lines 368–489): key resolution

The function reads the artifact descriptor maps out of two JSON-encoded
annotations (external format decoding, modelled as already-decoded values)
and resolves each artifact's storage key.  Modelled here is the part the
claim is about: the per-artifact key computation, including the
cached-pipeline-run substitution (lines 425–450 and 462–486). -/

/-- Lookup in a JS object literal used as a string map. -/
def lookupAssoc (l : List (String × String)) (k : String) : Option String :=
  (l.find? (fun p => p.1 == k)).map (·.2)

/-- Lines 430–433 / 468–471: the cache test on a declared task:
`((((task.taskSpec||{}).metadata||{}).labels||{})['pipelines.kubeflow.org/cache_enabled']||'false') === 'true'`. -/
def taskCacheEnabled (t : Task) : Bool :=
  let labels :=
    match t.taskSpec with
    | some ts => ts.metadataLabels.getD []
    | none => []
  jsOrS (lookupAssoc labels "pipelines.kubeflow.org/cache_enabled") "false" == "true"

/-- JS truthiness of the optional `cachedPipelineRun` argument. -/
def cachedTruthy (cached : Option String) : Bool :=
  match cached with
  | some c => c != ""
  | none => false

/-- Lines 427–436 (and identically 465–474): start from
`workflow.metadata.name || ''` and, scanning the declared tasks, replace it
with the cached run id whenever the producing task is cache-enabled and a
cached run id was supplied. -/
def pipelineRunIDFor (wfName : Option String) (tasks : List Task)
    (cached : Option String) (producingTask : Option String) : String :=
  tasks.foldl (fun pid task =>
    if producingTask == some task.name && taskCacheEnabled task && cachedTruthy cached then
      cached.getD ""
    else pid) (jsOrS wfName "")

/-- Lines 437–449: the resolved key of one declared *input* artifact:
`artifacts/${pipelineRunID}/${parentTask}/${artifact.name.substring(parent_task.length + 1)}.tgz`. -/
def inputArtifactKey (wfName : Option String) (tasks : List Task)
    (cached : Option String) (parentTask artifactName : String) : String :=
  "artifacts/" ++ pipelineRunIDFor wfName tasks cached (some parentTask) ++ "/" ++
    parentTask ++ "/" ++
    jsSubstring1 artifactName ((parentTask.data.length : Int) + 1) ++ ".tgz"

/-- Lines 462–485: the resolved key of one declared *output* artifact: the
producing task's name is the third `'/'`-segment of the raw key
(`artifact.key.split('/')[2]`, possibly `undefined`), and the
`$PIPELINERUN` placeholder is replaced (first occurrence) by the same
cached-or-current run id. -/
def outputArtifactKey (wfName : Option String) (tasks : List Task)
    (cached : Option String) (rawKey : String) : String :=
  let taskName := (jsSplitChar rawKey '/')[2]?
  jsReplaceFirst rawKey "$PIPELINERUN" (pipelineRunIDFor wfName tasks cached taskName)

/-! ## Specification-side string-shape predicates

The spec describes `decodeParam`'s two recognized shapes in terms of a
prefix/suffix pair and substring containment; these predicates express the
spec's wording, and the bridge lemmas below relate them to the tests the
source performs. -/

/-- The spec's pipeline-parameter shape: prefix `$(params.` and suffix `)`. -/
def shape1 (s : String) : Bool :=
  jsStartsWith s "$(params." && s.data.getLast? == some ')'

/-- The spec's dotted upstream-result shape: contains `$(` and `)` and is
not of the pipeline-parameter shape. -/
def dottedShape (s : String) : Bool :=
  jsIndexOf s "$(" != -1 && jsIndexOf s ")" != -1 && !shape1 s

/-- The second dot-separated segment of a string (spec wording), absent
when the string contains no `'.'`. -/
def secondDotSegment (s : String) : Option String :=
  (jsSplitChar s '.')[1]?

/-- The last dot-separated segment of a string (spec wording). -/
def lastDotSegment (s : String) : String :=
  (jsSplitChar s '.').getLastD ""

/-- A segment with its final character removed (what the source's
`substring(0, length - 1)` computes). -/
def dropFinalChar (seg : String) : String :=
  ⟨seg.data.take (seg.data.length - 1)⟩

/-- Modelled from the spec: "with the delimiter characters stripped" —
remove the reference-delimiter characters `$`, `(`, `)` from a segment. -/
def stripDelimiters (seg : String) : String :=
  ⟨seg.data.filter (fun c => !(c == '$' || c == '(' || c == ')'))⟩

/-! ## Bridge lemmas for the `decodeParam` shape tests -/

theorem leadsChars_iff_take (p : List Char) :
    ∀ l : List Char, leadsChars p l = true ↔ l.take p.length = p := by
  induction p with
  | nil => intro l; simp [leadsChars]
  | cons c cs ih =>
    intro l
    cases l with
    | nil => simp [leadsChars]
    | cons d ds =>
      simp only [leadsChars, List.length_cons, List.take_succ_cons, List.cons.injEq,
        Bool.and_eq_true, beq_iff_eq]
      rw [ih ds]
      constructor
      · rintro ⟨h1, h2⟩; exact ⟨h1.symm, h2⟩
      · rintro ⟨h1, h2⟩; exact ⟨h1.symm, h2⟩

theorem jsSubstring2_zero_nine (s : String) :
    jsSubstring2 s 0 9 = ⟨s.data.take (min 9 s.data.length)⟩ := by
  unfold jsSubstring2
  simp

theorem take_min_eq_iff_take_eq (l p : List Char) (hp : p.length = 9) :
    (l.take (min 9 l.length) = p) ↔ (l.take 9 = p) := by
  rcases le_or_lt 9 l.length with h | h
  · rw [min_eq_left h]
  · rw [min_eq_right h.le]
    constructor
    · intro hl
      have : l.length = 9 := by rw [← hp, ← hl]; simp [Nat.le_of_lt h]
      omega
    · intro hl
      have h2 : (l.take 9).length = 9 := by rw [hl, hp]
      have : l.length < 9 := h
      simp only [List.length_take] at h2
      omega

theorem drop_pred_of_getLast (l : List Char) :
    l.drop (l.length - 1) = (match l.getLast? with | some c => [c] | none => []) := by
  induction l with
  | nil => rfl
  | cons a as ih =>
    cases as with
    | nil => rfl
    | cons b t =>
      have h1 : (a :: b :: t).length - 1 = t.length + 1 := by simp
      have h2 : (b :: t).length - 1 = t.length := by simp
      have hstep : (a :: b :: t).drop ((a :: b :: t).length - 1) =
          (b :: t).drop ((b :: t).length - 1) := by
        rw [h1, h2, List.drop_succ_cons]
      rw [hstep, ih, List.getLast?_cons_cons]

theorem jsSubstring1_last (s : String) :
    jsSubstring1 s ((s.data.length : Int) - 1) = ⟨s.data.drop (s.data.length - 1)⟩ := by
  obtain ⟨l⟩ := s
  cases l with
  | nil => rfl
  | cons c cs =>
    simp only [jsSubstring1, jsSubstring2]
    have hlen : (c :: cs).length = cs.length + 1 := by simp
    rw [hlen]
    have htn : (((cs.length + 1 : Nat) : Int) - 1).toNat = cs.length := by omega
    have htn2 : (((cs.length + 1 : Nat) : Int)).toNat = cs.length + 1 := by omega
    rw [htn, htn2]
    rw [min_eq_left (by omega), min_self, min_eq_left (by omega), max_eq_right (by omega)]
    have h1 : cs.length + 1 - cs.length = 1 := by omega
    rw [h1]
    have h2 : ((c :: cs).drop cs.length).take 1 = (c :: cs).drop cs.length := by
      apply List.take_of_length_le
      simp [List.length_drop]
    rw [h2]
    have h3 : cs.length + 1 - 1 = cs.length := by omega
    rw [h3]

theorem cond1_eq_shape1 (s : String) :
    (jsSubstring2 s 0 9 == "$(params." &&
      jsSubstring1 s ((s.data.length : Int) - 1) == ")") = shape1 s := by
  have h1 : (jsSubstring2 s 0 9 == "$(params.") = jsStartsWith s "$(params." := by
    rw [jsSubstring2_zero_nine]
    rcases Bool.eq_false_or_eq_true (jsStartsWith s "$(params.") with h | h
    · rw [h]
      apply beq_iff_eq.mpr
      rw [jsStartsWith] at h
      rw [leadsChars_iff_take] at h
      apply congrArg String.mk
      rw [take_min_eq_iff_take_eq s.data "$(params.".data (by decide)]
      exact h
    · rw [h]
      apply beq_eq_false_iff_ne.mpr
      intro hc
      have hc2 : s.data.take (min 9 s.data.length) = "$(params.".data := by
        have := congrArg String.data hc; simpa using this
      rw [take_min_eq_iff_take_eq s.data "$(params.".data (by decide)] at hc2
      have hp : leadsChars "$(params.".data s.data = true := by
        rw [leadsChars_iff_take]; exact hc2
      rw [jsStartsWith] at h; rw [h] at hp; exact Bool.false_ne_true hp
  have h2 : (jsSubstring1 s ((s.data.length : Int) - 1) == ")") =
      (s.data.getLast? == some ')') := by
    rw [jsSubstring1_last, drop_pred_of_getLast]
    cases hgl : s.data.getLast? with
    | none => simp
    | some c =>
      rcases Bool.eq_false_or_eq_true (c == ')') with h | h
      · have heq := beq_iff_eq.mp h
        subst heq
        simp
      · have hne := beq_eq_false_iff_ne.mp h
        have hL : (String.mk [c] == ")") = false := by
          apply beq_eq_false_iff_ne.mpr
          intro hcon
          have := congrArg String.data hcon
          simp only at this
          exact hne (by simpa using this)
        have hR : ((some c : Option Char) == some ')') = false := by
          apply beq_eq_false_iff_ne.mpr
          simpa using hne
        rw [hL, hR]
  rw [h1, h2, shape1]

theorem jsSubstring2_dropLast (t : String) :
    jsSubstring2 t 0 ((t.data.length : Int) - 1) = dropFinalChar t := by
  obtain ⟨l⟩ := t
  cases l with
  | nil => rfl
  | cons c cs =>
    simp only [jsSubstring2, dropFinalChar]
    have hlen : (c :: cs).length = cs.length + 1 := by simp
    rw [hlen]
    have htn : (((cs.length + 1 : Nat) : Int) - 1).toNat = cs.length := by omega
    have htn0 : ((0 : Int)).toNat = 0 := rfl
    rw [htn, htn0]
    rw [Nat.min_eq_left (by omega), min_eq_left (by omega),
      min_eq_left (by omega), max_eq_right (by omega)]
    simp

theorem decodeParam_pipeline_eq (name : String) :
    decodeParam ("$(params." ++ name ++ ")") = { task := some "", param := some name } := by
  have hdata : ("$(params." ++ name ++ ")").data =
      "$(params.".data ++ (name.data ++ [')']) := by
    rw [String.data_append, String.data_append, List.append_assoc]
  have hlen : ("$(params." ++ name ++ ")").data.length = name.data.length + 10 := by
    rw [hdata]
    simp [List.length_append]
  have h1 : jsSubstring2 ("$(params." ++ name ++ ")") 0 9 = "$(params." := by
    rw [jsSubstring2_zero_nine]
    apply congrArg String.mk
    rw [hlen, hdata]
    rw [min_eq_left (by omega)]
    exact List.take_left' (by decide)
  have h2 : jsSubstring1 ("$(params." ++ name ++ ")")
      ((("$(params." ++ name ++ ")").data.length : Int) - 1) = ")" := by
    rw [jsSubstring1_last]
    apply congrArg String.mk
    rw [hlen, hdata]
    have hassoc : "$(params.".data ++ (name.data ++ [')']) =
        ("$(params.".data ++ name.data) ++ [')'] := by rw [List.append_assoc]
    rw [hassoc]
    apply List.drop_left'
    simp
  have h3 : jsSubstring2 ("$(params." ++ name ++ ")") 9
      ((("$(params." ++ name ++ ")").data.length : Int) - 1) = name := by
    simp only [jsSubstring2]
    rw [hlen]
    have htn9 : ((9 : Int)).toNat = 9 := rfl
    have htn : (((name.data.length + 10 : Nat) : Int) - 1).toNat = name.data.length + 9 := by
      omega
    rw [htn9, htn]
    rw [min_eq_left (by omega), min_eq_left (by omega),
      min_eq_left (by omega), max_eq_right (by omega)]
    rw [hdata]
    have hdrop : ("$(params.".data ++ (name.data ++ [')'])).drop 9 = name.data ++ [')'] :=
      List.drop_left' (by decide)
    rw [hdrop]
    have hsub : name.data.length + 9 - 9 = name.data.length := by omega
    rw [hsub]
    rw [List.take_left' rfl]
  rw [decodeParam]
  rw [h1, h2]
  simp only [beq_self_eq_true, Bool.and_self, if_true]
  rw [h3]

/-- **C5.** For every string of the pipeline-parameter shape — the fixed
prefix `$(params.` followed by a name followed by the suffix `)` —
`decodeParam` returns a reference whose `task` field is unset and whose
`param` field equals exactly the name between the delimiters.  The source
sets `task` to `''`, which is JS-falsy; "unset" is the falsiness every
consumer of the reference observes (`taskTruthy = false`), and the first
conjunct records the exact returned object. -/
theorem C5_decodeParam_pipeline_shape (name : String) :
    decodeParam ("$(params." ++ name ++ ")") = { task := some "", param := some name } ∧
    (decodeParam ("$(params." ++ name ++ ")")).taskTruthy = false := by
  refine ⟨decodeParam_pipeline_eq name, ?_⟩
  rw [decodeParam_pipeline_eq name]
  rfl

/-- **C4.** For every input string that matches neither the
pipeline-parameter shape (prefix `$(params.` and suffix `)`) nor the
dotted upstream-result shape (containing `$(` and `)`), `decodeParam`
returns an empty reference with both `task` and `param` absent.  (The
"never raises" half of the claim is reflected by `decodeParam` being a
total function: every JS operation it performs — `substring`, `indexOf`,
`split`, array indexing — is total on strings, so the model needs no
error case.) -/
theorem C4_decodeParam_literal (s : String) (h1 : shape1 s = false)
    (h2 : dottedShape s = false) :
    decodeParam s = { task := none, param := none } := by
  rw [decodeParam, cond1_eq_shape1, h1]
  rw [dottedShape, h1] at h2
  simp only [Bool.not_false, Bool.and_true] at h2
  simp [h2]

theorem C4_witness :
    shape1 "hello" = false ∧ dottedShape "hello" = false ∧
      decodeParam "hello" = { task := none, param := none } :=
  ⟨by decide, by decide, C4_decodeParam_literal "hello" (by decide) (by decide)⟩

/-- **C6, counterexample.**  The claim states that for every string of the
dotted shape the returned `param` equals the last dot-separated segment
with the delimiter characters stripped.  At `"$(x).b"` (which contains
`$(` and `)` and is not of the pipeline-parameter shape) the last segment
is `"b"`, which contains no delimiter character, yet the source strips its
final character unconditionally and returns `param = ""`. -/
theorem C6_counterexample_strip :
    ¬ (decodeParam "$(x).b" =
      { task := secondDotSegment "$(x).b",
        param := some (stripDelimiters (lastDotSegment "$(x).b")) }) := by
  decide

/-- **C6, amended.** For every string of the dotted upstream-result shape
(containing `$(` and `)` and not of the pipeline-parameter shape),
`decodeParam` returns a reference whose `task` field equals the second
dot-separated segment (absent when there is none) and whose `param` field
equals the last dot-separated segment with its *final character* removed;
when that segment ends with the `)` delimiter this is exactly the segment
with the trailing delimiter stripped. -/
theorem C6_decodeParam_dotted_shape (s : String) (h : dottedShape s = true) :
    decodeParam s =
      { task := secondDotSegment s,
        param := some (dropFinalChar (lastDotSegment s)) } ∧
    (∀ x : String, lastDotSegment s = x ++ ")" →
      dropFinalChar (lastDotSegment s) = x) := by
  constructor
  · rw [dottedShape] at h
    simp only [Bool.and_eq_true, Bool.not_eq_true'] at h
    obtain ⟨⟨hi1, hi2⟩, hs1⟩ := h
    rw [decodeParam, cond1_eq_shape1, hs1]
    simp only [Bool.false_eq_true, if_false, hi1, hi2, Bool.and_self, if_true]
    rw [jsSubstring2_dropLast]
    rfl
  · intro x hx
    rw [hx, dropFinalChar]
    have hdata : (x ++ ")").data = x.data ++ [')'] := by
      rw [String.data_append]
    rw [hdata]
    have hlen : (x.data ++ [')']).length - 1 = x.data.length := by
      simp
    rw [hlen, List.take_left' rfl]

/-! ## `parseStoragePath`: claim C7 -/

/-- The first `'/'`-separated segment of the part after the scheme (the
spec's "first path segment after the prefix"). -/
def firstSegment (r : String) : String :=
  (jsSplitChar r '/').headD ""

/-- The remaining segments joined by `'/'` (the spec's wording for the
key). -/
def remainingKey (r : String) : String :=
  jsJoin "/" ((jsSplitChar r '/').drop 1)

theorem leadsChars_self : ∀ l : List Char, leadsChars l l = true := by
  intro l
  induction l with
  | nil => rfl
  | cons c cs ih => simp [leadsChars, ih]

theorem leadsChars_append_split :
    ∀ (p q r : List Char),
      leadsChars q (p ++ r) =
        (leadsChars (q.take p.length) p && leadsChars (q.drop p.length) r) := by
  intro p
  induction p with
  | nil =>
    intro q r
    simp [leadsChars]
  | cons a ps ih =>
    intro q r
    cases q with
    | nil => simp [leadsChars]
    | cons b qs =>
      simp only [List.cons_append, leadsChars, List.length_cons, List.take_succ_cons,
        List.drop_succ_cons, List.append_eq, ih qs r, Bool.and_assoc]

theorem jsStartsWith_append_true (p r : String) : jsStartsWith (p ++ r) p = true := by
  rw [jsStartsWith, String.data_append, leadsChars_append_split,
    List.take_length, leadsChars_self, List.drop_length]
  cases hr : r.data with
  | nil => rfl
  | cons c cs => rfl

theorem jsStartsWith_append_false (p q r : String)
    (h : leadsChars (q.data.take p.data.length) p.data = false) :
    jsStartsWith (p ++ r) q = false := by
  rw [jsStartsWith, String.data_append, leadsChars_append_split, h, Bool.false_and]

theorem storagePathOf_append (svc : StorageService) (n : Nat) (p r : String)
    (h : p.data.length = n) :
    storagePathOf svc n (p ++ r) =
      { source := svc, bucket := firstSegment r, key := remainingKey r } := by
  rw [storagePathOf]
  have hdrop : (p ++ r).data.drop n = r.data := by
    rw [String.data_append]
    exact List.drop_left' h
  rw [hdrop]
  rfl

theorem parseStoragePath_gs (r : String) :
    parseStoragePath ("gs://" ++ r) =
      .ok { source := .gcs, bucket := firstSegment r, key := remainingKey r } := by
  rw [parseStoragePath, jsStartsWith_append_true]
  simp only [if_true]
  rw [storagePathOf_append .gcs 5 "gs://" r (by decide)]

theorem parseStoragePath_minio (r : String) :
    parseStoragePath ("minio://" ++ r) =
      .ok { source := .minio, bucket := firstSegment r, key := remainingKey r } := by
  rw [parseStoragePath,
    jsStartsWith_append_false "minio://" "gs://" r (by decide),
    jsStartsWith_append_true]
  simp only [Bool.false_eq_true, if_false, if_true]
  rw [storagePathOf_append .minio 8 "minio://" r (by decide)]

theorem parseStoragePath_s3 (r : String) :
    parseStoragePath ("s3://" ++ r) =
      .ok { source := .s3, bucket := firstSegment r, key := remainingKey r } := by
  rw [parseStoragePath,
    jsStartsWith_append_false "s3://" "gs://" r (by decide),
    jsStartsWith_append_false "s3://" "minio://" r (by decide),
    jsStartsWith_append_true]
  simp only [Bool.false_eq_true, if_false, if_true]
  rw [storagePathOf_append .s3 5 "s3://" r (by decide)]

theorem parseStoragePath_http (r : String) :
    parseStoragePath ("http://" ++ r) =
      .ok { source := .http, bucket := firstSegment r, key := remainingKey r } := by
  rw [parseStoragePath,
    jsStartsWith_append_false "http://" "gs://" r (by decide),
    jsStartsWith_append_false "http://" "minio://" r (by decide),
    jsStartsWith_append_false "http://" "s3://" r (by decide),
    jsStartsWith_append_true]
  simp only [Bool.false_eq_true, if_false, if_true]
  rw [storagePathOf_append .http 7 "http://" r (by decide)]

theorem parseStoragePath_https (r : String) :
    parseStoragePath ("https://" ++ r) =
      .ok { source := .https, bucket := firstSegment r, key := remainingKey r } := by
  rw [parseStoragePath,
    jsStartsWith_append_false "https://" "gs://" r (by decide),
    jsStartsWith_append_false "https://" "minio://" r (by decide),
    jsStartsWith_append_false "https://" "s3://" r (by decide),
    jsStartsWith_append_false "https://" "http://" r (by decide),
    jsStartsWith_append_true]
  simp only [Bool.false_eq_true, if_false, if_true]
  rw [storagePathOf_append .https 8 "https://" r (by decide)]

theorem parseStoragePath_volume (r : String) :
    parseStoragePath ("volume://" ++ r) =
      .ok { source := .volume, bucket := firstSegment r, key := remainingKey r } := by
  rw [parseStoragePath,
    jsStartsWith_append_false "volume://" "gs://" r (by decide),
    jsStartsWith_append_false "volume://" "minio://" r (by decide),
    jsStartsWith_append_false "volume://" "s3://" r (by decide),
    jsStartsWith_append_false "volume://" "http://" r (by decide),
    jsStartsWith_append_false "volume://" "https://" r (by decide),
    jsStartsWith_append_true]
  simp only [Bool.false_eq_true, if_false, if_true]
  rw [storagePathOf_append .volume 9 "volume://" r (by decide)]

/-- **C7.** `parseStoragePath` maps any string beginning with one of the
six literal prefixes `gs://`, `minio://`, `s3://`, `http://`, `https://`,
`volume://` to a `StoragePath` whose source is the corresponding service,
whose bucket is the first path segment after the prefix and whose key is
the remaining segments joined by `'/'`; in particular
`parseStoragePath "gs://bucket/a/b" = ok {gcs, "bucket", "a/b"}`; every
string starting with none of the six prefixes (e.g. `"ftp://x"`) raises
the unsupported-scheme error. -/
theorem C7_parseStoragePath_schemes :
    (∀ r, parseStoragePath ("gs://" ++ r) =
      .ok { source := .gcs, bucket := firstSegment r, key := remainingKey r }) ∧
    (∀ r, parseStoragePath ("minio://" ++ r) =
      .ok { source := .minio, bucket := firstSegment r, key := remainingKey r }) ∧
    (∀ r, parseStoragePath ("s3://" ++ r) =
      .ok { source := .s3, bucket := firstSegment r, key := remainingKey r }) ∧
    (∀ r, parseStoragePath ("http://" ++ r) =
      .ok { source := .http, bucket := firstSegment r, key := remainingKey r }) ∧
    (∀ r, parseStoragePath ("https://" ++ r) =
      .ok { source := .https, bucket := firstSegment r, key := remainingKey r }) ∧
    (∀ r, parseStoragePath ("volume://" ++ r) =
      .ok { source := .volume, bucket := firstSegment r, key := remainingKey r }) ∧
    parseStoragePath "gs://bucket/a/b" =
      .ok { source := .gcs, bucket := "bucket", key := "a/b" } ∧
    (∀ s, jsStartsWith s "gs://" = false → jsStartsWith s "minio://" = false →
      jsStartsWith s "s3://" = false → jsStartsWith s "http://" = false →
      jsStartsWith s "https://" = false → jsStartsWith s "volume://" = false →
      parseStoragePath s = .error ("Unsupported storage path: " ++ s)) ∧
    parseStoragePath "ftp://x" = .error "Unsupported storage path: ftp://x" := by
  refine ⟨parseStoragePath_gs, parseStoragePath_minio, parseStoragePath_s3,
    parseStoragePath_http, parseStoragePath_https, parseStoragePath_volume,
    by rfl, ?_, by rfl⟩
  intro s h1 h2 h3 h4 h5 h6
  rw [parseStoragePath, h1, h2, h3, h4, h5, h6]
  simp

theorem C7_witness :
    jsStartsWith "ftp://x" "gs://" = false ∧
    parseStoragePath "ftp://x" = .error ("Unsupported storage path: " ++ "ftp://x") :=
  ⟨by decide,
    C7_parseStoragePath_schemes.2.2.2.2.2.2.2.1 "ftp://x" (by decide) (by decide)
      (by decide) (by decide) (by decide) (by decide)⟩

/-! ## Claims C2 and C9: empty-run documents -/

theorem foldl_fixed {α β : Type} (f : β → α → β) :
    ∀ (l : List α) (b : β), (∀ b' x, x ∈ l → f b' x = b') → l.foldl f b = b := by
  intro l
  induction l with
  | nil => intro b _; rfl
  | cons x xs ih =>
    intro b h
    rw [List.foldl_cons, h b x (by simp)]
    exact ih b (fun b' y hy => h b' y (by simp [hy]))

theorem smGet_of_empty (st : WStatus) (ht : st.taskRuns.getD [] = [])
    (hr : st.runs.getD [] = []) : ∀ n, smGet st n = none := by
  intro n
  rw [smGet, ht, hr]
  rfl

theorem conditionTaskNames_of_empty (st : WStatus) (h : ∀ n, smGet st n = none)
    (tasks : List Task) : conditionTaskNames st tasks = [] := by
  rw [conditionTaskNames]
  apply foldl_fixed
  intro acc task _
  rw [h task.name]
  simp only [Option.isSome_none, Bool.false_eq_true, if_false]
  have hany : task.whenClauses.any (fun c =>
      let p := decodeParam c.input
      p.taskTruthy && (match p.task with
        | some t => (smGet st t).isSome
        | none => false)) = false := by
    rw [List.any_eq_false]
    intro c _
    simp only [Bool.and_eq_true, not_and]
    intro _
    match hp : (decodeParam c.input).task with
    | some t => simp [h t]
    | none => simp
  rw [hany]
  simp

theorem fold_processTask_of_empty (pp : List PipelineParam) (tasks : List Task) :
    ∀ acc : GAcc, (∀ n, smGet acc.st n = none) →
      tasks.foldl (processTask pp []) acc = acc := by
  induction tasks with
  | nil => intro acc _; rfl
  | cons t ts ih =>
    intro acc h
    rw [List.foldl_cons]
    have hstep : processTask pp [] acc t = acc := by
      rw [processTask, h t.name]
      simp
    rw [hstep]
    exact ih acc h

/-- **C9.** If the status object has no `taskRuns` field (in particular if
`status` is an empty object, which has no fields at all), then
`createRuntimeGraph` returns an empty graph with zero nodes and zero
edges, even when `status.runs` contains custom run records that have a
status: a document whose only run records are custom `runs` records never
produces any node. -/
theorem C9_no_taskRuns_empty_graph (w : Workflow) (h : w.status.taskRuns = none) :
    (createRuntimeGraph w).1.nodes = [] ∧ (createRuntimeGraph w).1.edges = [] ∧
    nodeSet (createRuntimeGraph w).1 = ∅ ∧ edgeSet (createRuntimeGraph w).1 = ∅ := by
  have hg : (createRuntimeGraph w).1 = { nodes := [], edges := [] } := by
    rw [createRuntimeGraph, h]
    rfl
  rw [hg]
  exact ⟨rfl, rfl, rfl, rfl⟩

/-- A one-task declaration, used by concrete examples. -/
def taskOnlyA : Task :=
  { name := "A"
    params := []
    whenClauses := []
    conditions := []
    runAfter := none
    taskSpec := none }

/-- A succeeded custom-run record for task `A` (no pod name). -/
def customRecA : RunRecord :=
  { pipelineTaskName := "A"
    status := some
      { podName := none
        conditions := some [{ condType := "Succeeded", reason := "Succeeded" }]
        taskResults := none
        taskSpec := none }
    taskRunId := none }

/-- A document whose only run records are custom `runs` records (no
`taskRuns` field at all). -/
def wOnlyCustomRuns : Workflow :=
  { spec :=
      { params := []
        pipelineSpec := { tasks := [taskOnlyA], finallyTasks := [] } }
    status := { taskRuns := none, runs := some [("run-1", customRecA)] } }

theorem C9_witness :
    nodeSet (createRuntimeGraph wOnlyCustomRuns).1 = ∅ ∧
      edgeSet (createRuntimeGraph wOnlyCustomRuns).1 = ∅ :=
  ⟨(C9_no_taskRuns_empty_graph wOnlyCustomRuns rfl).2.2.1,
   (C9_no_taskRuns_empty_graph wOnlyCustomRuns rfl).2.2.2⟩

/-- **C2.** For every status document that carries no run records
(execution not yet started) — `taskRuns` and `runs` each absent or an
empty collection — `createRuntimeGraph` returns a graph with zero nodes
and zero edges. -/
theorem C2_no_records_empty_graph (w : Workflow)
    (ht : w.status.taskRuns = none ∨ w.status.taskRuns = some [])
    (hr : w.status.runs = none ∨ w.status.runs = some []) :
    (createRuntimeGraph w).1.nodes = [] ∧ (createRuntimeGraph w).1.edges = [] ∧
    nodeSet (createRuntimeGraph w).1 = ∅ ∧ edgeSet (createRuntimeGraph w).1 = ∅ := by
  have hg : (createRuntimeGraph w).1 = { nodes := [], edges := [] } := by
    rcases ht with ht | ht
    · rw [createRuntimeGraph, ht]
      rfl
    · rw [createRuntimeGraph]
      have hnone : w.status.taskRuns.isNone = false := by rw [ht]; rfl
      rw [hnone]
      simp only [Bool.false_eq_true, if_false]
      have hempty : ∀ n, smGet (injectIds w.status) n = none := by
        apply smGet_of_empty
        · rw [injectIds]
          simp only
          rw [ht]
          rfl
        · rw [injectIds]
          simp only
          rcases hr with hr | hr <;> rw [hr] <;> rfl
      rw [conditionTaskNames_of_empty _ hempty]
      rw [fold_processTask_of_empty _ _ _ hempty]
  rw [hg]
  exact ⟨rfl, rfl, rfl, rfl⟩

/-- A document with empty run-record collections (execution not yet
started). -/
def wNoRecords : Workflow :=
  { spec :=
      { params := []
        pipelineSpec := { tasks := [taskOnlyA], finallyTasks := [] } }
    status := { taskRuns := some [], runs := some [] } }

theorem C2_witness :
    nodeSet (createRuntimeGraph wNoRecords).1 = ∅ ∧
      edgeSet (createRuntimeGraph wNoRecords).1 = ∅ :=
  ⟨(C2_no_records_empty_graph wNoRecords (Or.inr rfl) (Or.inr rfl)).2.2.1,
   (C2_no_records_empty_graph wNoRecords (Or.inr rfl) (Or.inr rfl)).2.2.2⟩

/-! ## The graph-relevant view of the status object

`createRuntimeGraph` mutates the status document in two ways: it injects
`taskRunId` fields (lines 78/85) and writes resolved parameter values into
`status.taskSpec.params[].value` (line 272).  Neither field is ever read
by the node/edge computation.  `rstProj`/`recProj` project a record onto
exactly the data the graph computation reads; `stEquiv` relates status
objects equal under that projection, and the congruence lemmas below show
the produced nodes and edges only depend on the projection. -/

/-- The view of a record's `status` read by the graph computation:
`podName`, the full `conditions` list, the full `taskResults` list, and of
`taskSpec` only its presence and its parameter *names* (the written-back
values are never read). -/
def rstProj (rst : RecStatus) :
    Option String × Option (List Cond) × Option (List TaskResult) × Option (List String) :=
  (rst.podName, rst.conditions, rst.taskResults,
    rst.taskSpec.map (fun ts => ts.params.map (fun sp => sp.name)))

/-- The view of a run record read by the graph computation (`taskRunId` is
written but never read). -/
def recProj (r : RunRecord) :
    String × Option (Option String × Option (List Cond) × Option (List TaskResult) ×
      Option (List String)) :=
  (r.pipelineTaskName, r.status.map rstProj)

def entriesProj (l : List (String × RunRecord)) :
    List (String × (String × Option (Option String × Option (List Cond) ×
      Option (List TaskResult) × Option (List String)))) :=
  l.map (fun pr => (pr.1, recProj pr.2))

/-- Two status objects that agree on the graph-relevant view. -/
def stEquiv (s t : WStatus) : Prop :=
  s.taskRuns.map entriesProj = t.taskRuns.map entriesProj ∧
  s.runs.map entriesProj = t.runs.map entriesProj

theorem stEquiv_refl (s : WStatus) : stEquiv s s := ⟨rfl, rfl⟩

theorem stEquiv_symm {s t : WStatus} (h : stEquiv s t) : stEquiv t s :=
  ⟨h.1.symm, h.2.symm⟩

theorem stEquiv_trans {s t u : WStatus} (h1 : stEquiv s t) (h2 : stEquiv t u) :
    stEquiv s u :=
  ⟨h1.1.trans h2.1, h1.2.trans h2.2⟩

/-- The view of a `statusMap` hit read by the graph computation. -/
def pairProj (p : RunRecord × RecStatus) :
    String × Option String × Option (List Cond) × Option (List TaskResult) ×
      Option (List String) :=
  (p.1.pipelineTaskName, rstProj p.2)

/-- What `smGet` contributes for one projected entry. -/
def pickView (n : String) (pr : String × (String × Option (Option String × Option (List Cond) ×
    Option (List TaskResult) × Option (List String)))) :
    Option (String × Option String × Option (List Cond) × Option (List TaskResult) ×
      Option (List String)) :=
  match pr.2.2 with
  | some rv => if pr.2.1 == n then some (pr.2.1, rv) else none
  | none => none

theorem filterMap_pick_proj (n : String) : ∀ l : List (String × RunRecord),
    (l.filterMap (fun pr =>
      match pr.2.status with
      | some rst => if pr.2.pipelineTaskName == n then some (pr.2, rst) else none
      | none => none)).map pairProj
    = (entriesProj l).filterMap (pickView n) := by
  intro l
  induction l with
  | nil => rfl
  | cons pr rest ih =>
    rw [entriesProj, List.map_cons, List.filterMap_cons, List.filterMap_cons]
    have hpick : pickView n (pr.1, recProj pr.2) =
        (match pr.2.status with
          | some rst => if pr.2.pipelineTaskName == n then some (pr.2, rst) else none
          | none => none).map pairProj := by
      rw [pickView, recProj]
      cases hs : pr.2.status with
      | none => rfl
      | some rst =>
        simp only [Option.map_some']
        cases hn : pr.2.pipelineTaskName == n <;> simp [hn, pairProj]
    rw [hpick]
    cases hm : (match pr.2.status with
      | some rst => if pr.2.pipelineTaskName == n then some (pr.2, rst) else none
      | none => none) with
    | none =>
      simp only [Option.map_none']
      rw [ih]
      rfl
    | some p =>
      simp only [Option.map_some']
      rw [List.map_cons, ih]
      rfl

theorem smGet_map_pairProj (st : WStatus) (n : String) :
    (smGet st n).map pairProj =
      ((entriesProj (st.taskRuns.getD [] ++ st.runs.getD [])).filterMap
        (pickView n)).getLast? := by
  rw [smGet, ← List.getLast?_map, filterMap_pick_proj]

theorem entriesProj_append (a b : List (String × RunRecord)) :
    entriesProj (a ++ b) = entriesProj a ++ entriesProj b :=
  List.map_append _ a b

theorem optList_proj_eq {x y : Option (List (String × RunRecord))}
    (h : x.map entriesProj = y.map entriesProj) :
    entriesProj (x.getD []) = entriesProj (y.getD []) := by
  cases x <;> cases y <;> simp_all

theorem smGet_proj_congr {s t : WStatus} (h : stEquiv s t) (n : String) :
    (smGet s n).map pairProj = (smGet t n).map pairProj := by
  rw [smGet_map_pairProj, smGet_map_pairProj, entriesProj_append, entriesProj_append,
    optList_proj_eq h.1, optList_proj_eq h.2]

theorem smGet_isSome_congr {s t : WStatus} (h : stEquiv s t) (n : String) :
    (smGet s n).isSome = (smGet t n).isSome := by
  have hc := smGet_proj_congr h n
  cases hs : smGet s n <;> cases ht : smGet t n <;> rw [hs, ht] at hc <;> simp_all

theorem smGet_none_congr {s t : WStatus} (h : stEquiv s t) (n : String)
    (hn : smGet s n = none) : smGet t n = none := by
  have hc := smGet_proj_congr h n
  rw [hn] at hc
  cases ht : smGet t n <;> rw [ht] at hc <;> simp_all

theorem smGet_some_congr {s t : WStatus} (h : stEquiv s t) (n : String)
    {p : RunRecord × RecStatus} (hp : smGet s n = some p) :
    ∃ q, smGet t n = some q ∧ pairProj q = pairProj p := by
  have hc := smGet_proj_congr h n
  rw [hp] at hc
  cases ht : smGet t n with
  | none => rw [ht] at hc; simp at hc
  | some q =>
    rw [ht] at hc
    simp only [Option.map_some', Option.some.injEq] at hc
    exact ⟨q, rfl, hc.symm⟩

theorem firstCondSucceeded_of_proj {a b : RunRecord × RecStatus}
    (h : pairProj a = pairProj b) :
    firstCondSucceeded a.2 = firstCondSucceeded b.2 ∧ a.2.podName = b.2.podName ∧
      a.1.pipelineTaskName = b.1.pipelineTaskName ∧
      a.2.taskSpec.isSome = b.2.taskSpec.isSome := by
  rw [pairProj, pairProj, rstProj, rstProj] at h
  simp only [Prod.mk.injEq] at h
  obtain ⟨h1, h2, h3, h4, h5⟩ := h
  refine ⟨?_, h2, h1, ?_⟩
  · rw [firstCondSucceeded, firstCondSucceeded, h3]
  · cases hsa : a.2.taskSpec <;> cases hsb : b.2.taskSpec <;>
      rw [hsa, hsb] at h5 <;> simp_all

/-! ## The mutations preserve the graph-relevant view -/

theorem recProj_setStatusParam (pname v : String) (r : RunRecord) :
    recProj (setStatusParam pname v r) = recProj r := by
  rw [setStatusParam, recProj, recProj]
  cases hs : r.status with
  | none => rfl
  | some rst =>
    simp only [Option.map_some']
    apply congrArg (Prod.mk r.pipelineTaskName)
    apply congrArg some
    rw [rstProj, rstProj]
    cases hts : rst.taskSpec with
    | none => rfl
    | some ts =>
      simp only [Option.map_some']
      refine congrArg _ (congrArg _ (congrArg _ (congrArg _ ?_)))
      rw [List.map_map]
      apply List.map_congr_left
      intro sp _
      by_cases hn : sp.name = pname <;> simp [hn]

theorem entriesProj_updateLast (p : String × RunRecord → Bool)
    (f2 : String × RunRecord → String × RunRecord)
    (hf : ∀ x, ((f2 x).1, recProj (f2 x).2) = (x.1, recProj x.2)) :
    ∀ l, entriesProj (updateLast p f2 l) = entriesProj l := by
  intro l
  induction l with
  | nil => rfl
  | cons x xs ih =>
    rw [updateLast]
    by_cases h1 : xs.any p
    · rw [if_pos h1, entriesProj, List.map_cons]
      rw [entriesProj] at ih
      rw [ih]
      rfl
    · rw [if_neg h1]
      by_cases h2 : p x
      · rw [if_pos h2, entriesProj, entriesProj, List.map_cons, List.map_cons, hf x]
      · rw [if_neg h2]

theorem stEquiv_updateDesignated (st : WStatus) (n : String) (f : RunRecord → RunRecord)
    (hf : ∀ r, recProj (f r) = recProj r) :
    stEquiv (updateDesignated st n f) st := by
  rw [updateDesignated]
  have hf2 : ∀ x : String × RunRecord,
      (((fun pr => (pr.1, f pr.2)) x).1, recProj ((fun pr => (pr.1, f pr.2)) x).2) =
        (x.1, recProj x.2) := by
    intro x
    simp only
    rw [hf x.2]
  by_cases h1 : (st.runs.getD []).any (fun pr => pr.2.status.isSome && pr.2.pipelineTaskName == n)
  · rw [if_pos h1]
    refine ⟨rfl, ?_⟩
    cases hr : st.runs with
    | none => rfl
    | some l =>
      simp only [Option.map_some']
      rw [entriesProj_updateLast _ _ hf2]
  · rw [if_neg h1]
    by_cases h2 : (st.taskRuns.getD []).any
        (fun pr => pr.2.status.isSome && pr.2.pipelineTaskName == n)
    · rw [if_pos h2]
      refine ⟨?_, rfl⟩
      cases ht : st.taskRuns with
      | none => rfl
      | some l =>
        simp only [Option.map_some']
        rw [entriesProj_updateLast _ _ hf2]
    · rw [if_neg h2]
      exact stEquiv_refl st

theorem recProj_setTaskRunId (r : RunRecord) (x : Option String) :
    recProj { r with taskRunId := x } = recProj r := rfl

theorem stEquiv_injectIds (st : WStatus) : stEquiv (injectIds st) st := by
  rw [injectIds]
  constructor
  · cases ht : st.taskRuns with
    | none => rfl
    | some l =>
      simp only [Option.map_some']
      rw [entriesProj, entriesProj, List.map_map]
      rfl
  · cases hr : st.runs with
    | none => rfl
    | some l =>
      simp only [Option.map_some']
      rw [entriesProj, entriesProj, List.map_map]
      rfl

/-! ## Characterization of the edge producers -/

/-- The edge (if any) one parameter binding contributes (lines 249–259),
as a function of the status object's graph-relevant view. -/
def gCP (st : WStatus) (owner : String) (childId : Option String)
    (param : TaskParam) : Option REdge :=
  let sp := decodeParam param.value
  if sp.taskTruthy then
    match sp.task with
    | some pt =>
      (smGet st pt).bind (fun pr =>
        if firstCondSucceeded pr.2 then
          some { parent := pr.2.podName
                 child := if owner == "" then childId else some owner }
        else none)
    | none => none
  else none

theorem cpParamStep_state_equiv (pp : List PipelineParam) (comp : Component)
    (owner : String) (childId : Option String) (es : List REdge) (st : WStatus)
    (param : TaskParam) :
    stEquiv (cpParamStep pp comp owner childId (es, st) param).2 st := by
  cases hn : comp.name with
  | none =>
    simp only [cpParamStep, hn]
    exact stEquiv_refl st
  | some n =>
    cases hs : smGet st n with
    | none =>
      simp only [cpParamStep, hn, hs]
      exact stEquiv_refl st
    | some pr =>
      obtain ⟨r, rst⟩ := pr
      cases hts : rst.taskSpec.isSome with
      | true =>
        simp only [cpParamStep, hn, hs, hts, if_true]
        exact stEquiv_updateDesignated st n _ (recProj_setStatusParam _ _)
      | false =>
        simp only [cpParamStep, hn, hs, hts, Bool.false_eq_true, if_false]
        exact stEquiv_refl st

theorem cpParamStep_edges_eq (pp : List PipelineParam) (comp : Component)
    (owner : String) (childId : Option String) (es : List REdge) {sti st0 : WStatus}
    (heq : stEquiv sti st0) (param : TaskParam) :
    (cpParamStep pp comp owner childId (es, sti) param).1 =
      es ++ (gCP st0 owner childId param).toList := by
  cases htr : (decodeParam param.value).taskTruthy with
  | false =>
    simp only [cpParamStep, gCP, htr]
    simp
  | true =>
    cases htask : (decodeParam param.value).task with
    | none =>
      simp only [cpParamStep, gCP, htr, htask]
      simp
    | some pt =>
      cases hsi : smGet sti pt with
      | none =>
        have h0 := smGet_none_congr heq pt hsi
        simp only [cpParamStep, gCP, htr, htask, hsi, h0]
        simp
      | some pri =>
        obtain ⟨pr0, hs0, hproj⟩ := smGet_some_congr heq pt hsi
        obtain ⟨hsucc, hpod, -, -⟩ := firstCondSucceeded_of_proj hproj
        obtain ⟨ri, rsti⟩ := pri
        obtain ⟨r0, rst0⟩ := pr0
        simp only at hsucc hpod
        cases hfc : firstCondSucceeded rsti with
        | true =>
          have hfc0 : firstCondSucceeded rst0 = true := by rw [hsucc]; exact hfc
          simp only [cpParamStep, gCP, htr, htask, hsi, hs0, hfc, hfc0, Option.some_bind,
            if_true, Bool.not_true, Bool.false_eq_true, if_false, hpod]
          simp
        | false =>
          have hfc0 : firstCondSucceeded rst0 = false := by rw [hsucc]; exact hfc
          simp only [cpParamStep, gCP, htr, htask, hsi, hs0, hfc, hfc0, Option.some_bind,
            Bool.false_eq_true, if_false, Bool.not_true]
          simp

theorem checkParams_characterization (st0 : WStatus) (pp : List PipelineParam)
    (comp : Component) (owner : String) :
    (checkParams st0 pp comp owner).1 =
      comp.params.filterMap (gCP st0 owner (componentIdOf st0 comp owner)) ∧
    stEquiv (checkParams st0 pp comp owner).2 st0 := by
  simp only [checkParams]
  suffices h : ∀ (ps : List TaskParam) (es : List REdge) (sti : WStatus),
      stEquiv sti st0 →
      (ps.foldl (cpParamStep pp comp owner (componentIdOf st0 comp owner)) (es, sti)).1 =
        es ++ ps.filterMap (gCP st0 owner (componentIdOf st0 comp owner)) ∧
      stEquiv (ps.foldl (cpParamStep pp comp owner (componentIdOf st0 comp owner))
        (es, sti)).2 st0 by
    have := h comp.params [] st0 (stEquiv_refl st0)
    simpa using this
  intro ps
  induction ps with
  | nil =>
    intro es sti heq
    exact ⟨by simp, heq⟩
  | cons p ps ih =>
    intro es sti heq
    rw [List.foldl_cons]
    have hpair : cpParamStep pp comp owner (componentIdOf st0 comp owner) (es, sti) p =
        ((cpParamStep pp comp owner (componentIdOf st0 comp owner) (es, sti) p).1,
         (cpParamStep pp comp owner (componentIdOf st0 comp owner) (es, sti) p).2) := rfl
    rw [hpair]
    rw [cpParamStep_edges_eq pp comp owner _ es heq p]
    have hst : stEquiv (cpParamStep pp comp owner (componentIdOf st0 comp owner)
        (es, sti) p).2 st0 :=
      stEquiv_trans (cpParamStep_state_equiv pp comp owner _ es sti p) heq
    obtain ⟨h1, h2⟩ := ih (es ++ (gCP st0 owner (componentIdOf st0 comp owner) p).toList) _ hst
    refine ⟨?_, h2⟩
    rw [h1, List.filterMap_cons]
    cases hg : gCP st0 owner (componentIdOf st0 comp owner) p <;> simp [hg]

theorem foldl_opt_append {α β : Type} (g : α → Option β) :
    ∀ (l : List α) (acc : List β),
      l.foldl (fun acc2 x => acc2 ++ (g x).toList) acc = acc ++ l.filterMap g := by
  intro l
  induction l with
  | nil => intro acc; simp
  | cons x xs ih =>
    intro acc
    rw [List.foldl_cons, ih, List.filterMap_cons]
    cases hg : g x <;> simp [hg]

/-- The edge (if any) one `when` clause contributes (lines 126–136), as a
function of the status object. -/
def gWhen (st : WStatus) (tid : String) (c : WhenClause) : Option REdge :=
  let p := decodeParam c.input
  if p.taskTruthy then
    match p.task with
    | some t =>
      (smGet st t).map (fun pr =>
        { parent := some (jsOrS pr.2.podName pr.1.pipelineTaskName), child := some tid })
    | none => none
  else none

theorem whenEdges_eq (st : WStatus) (task : Task) (tid : String) :
    whenEdges st task tid = task.whenClauses.filterMap (gWhen st tid) := by
  rw [whenEdges]
  have hext : task.whenClauses.foldl (fun acc c =>
      let param := decodeParam c.input
      if param.taskTruthy then
        match param.task with
        | some t =>
          (match smGet st t with
           | some (rec, rst) =>
             acc ++ [{ parent := some (jsOrS rst.podName rec.pipelineTaskName)
                       child := some tid }]
           | none => acc)
        | none => acc
      else acc) [] =
      task.whenClauses.foldl (fun acc c => acc ++ (gWhen st tid c).toList) [] := by
    apply List.foldl_ext
    intro acc c _
    simp only
    cases htr : (decodeParam c.input).taskTruthy with
    | false => simp [gWhen, htr]
    | true =>
      cases htask : (decodeParam c.input).task with
      | none => simp [gWhen, htr, htask]
      | some t =>
        cases hsm : smGet st t with
        | none => simp [gWhen, htr, htask, hsm]
        | some pr =>
          obtain ⟨rec, rst⟩ := pr
          simp [gWhen, htr, htask, hsm]
  rw [hext, foldl_opt_append]
  rfl

/-- The edge (if any) one `runAfter` entry contributes (lines 178–188). -/
def gRA (st : WStatus) (tid : String) (pt : String) : Option REdge :=
  (smGet st pt).bind (fun pr =>
    if firstCondSucceeded pr.2 then
      some { parent := pr.2.podName, child := some tid }
    else none)

theorem runAfterEdges_eq (st : WStatus) (task : Task) (tid : String) :
    runAfterEdges st task tid = (task.runAfter.getD []).filterMap (gRA st tid) := by
  rw [runAfterEdges]
  cases hra : task.runAfter with
  | none => rfl
  | some l =>
    simp only [Option.getD_some]
    have hext : l.foldl (fun acc parentTask =>
        match smGet st parentTask with
        | some (_, rst) =>
          if firstCondSucceeded rst then
            acc ++ [{ parent := rst.podName, child := some tid }]
          else acc
        | none => acc) [] =
        l.foldl (fun acc pt => acc ++ (gRA st tid pt).toList) [] := by
      apply List.foldl_ext
      intro acc pt _
      cases hsm : smGet st pt with
      | none => simp [gRA, hsm]
      | some pr =>
        obtain ⟨rec, rst⟩ := pr
        cases hfc : firstCondSucceeded rst with
        | true => simp [gRA, hsm, hfc]
        | false => simp [gRA, hsm, hfc]
    rw [hext, foldl_opt_append]
    rfl

/-- The edge (if any) one parent name of an aggregator task list (or of an
aggregator condition expression) contributes (lines 155–174). -/
def gTL (st : WStatus) (tid : String) (pt : String) : Option REdge :=
  (smGet st pt).map (fun pr =>
    { parent := some (jsOrS pr.2.podName pr.1.pipelineTaskName), child := some tid })

theorem anySeq_inner_eq (st : WStatus) (tid : String) (arg : String) (es : List REdge) :
    (jsSplitChar arg ',').foldl (fun es2 parentTask =>
      match smGet st parentTask with
      | some (rec, rst) =>
        es2 ++ [{ parent := some (jsOrS rst.podName rec.pipelineTaskName)
                  child := some tid }]
      | none => es2) es = es ++ (jsSplitChar arg ',').filterMap (gTL st tid) := by
  have hext : (jsSplitChar arg ',').foldl (fun es2 parentTask =>
      match smGet st parentTask with
      | some (rec, rst) =>
        es2 ++ [{ parent := some (jsOrS rst.podName rec.pipelineTaskName)
                  child := some tid }]
      | none => es2) es =
      (jsSplitChar arg ',').foldl (fun es2 pt => es2 ++ (gTL st tid pt).toList) es := by
    apply List.foldl_ext
    intro acc pt _
    cases hsm : smGet st pt with
    | none => simp [gTL, hsm]
    | some pr =>
      obtain ⟨rec, rst⟩ := pr
      simp [gTL, hsm]
  rw [hext, foldl_opt_append]

/-- Every step of the aggregator argument scan only appends edges. -/
theorem anySeqStep_edges_shape (st : WStatus) (tid : String)
    (acc : Bool × Bool × List REdge) (arg : String) :
    ∃ l, (anySeqStep st tid acc arg).2.2 = acc.2.2 ++ l := by
  obtain ⟨b1, b2, es⟩ := acc
  rw [anySeqStep]
  simp only
  by_cases h1 : arg == "--taskList"
  · rw [if_pos h1]
    exact ⟨[], by simp⟩
  · rw [if_neg h1]
    by_cases h2 : arg == "-c"
    · rw [if_pos h2]
      exact ⟨[], by simp⟩
    · rw [if_neg h2]
      by_cases h3 : b1
      · rw [if_pos h3]
        refine ⟨(jsSplitChar arg ',').filterMap (gTL st tid), ?_⟩
        simp only
        rw [anySeq_inner_eq]
      · rw [if_neg h3]
        by_cases h4 : b2
        · rw [if_pos h4]
          cases hsm : smGet st (jsSubstring2 arg (jsIndexOf arg "results_" + 8)
              (jsIndexOf arg "_output")) with
          | none => exact ⟨[], by simp [hsm]⟩
          | some pr =>
            obtain ⟨rec, rst⟩ := pr
            exact ⟨[{ parent := some (jsOrS rst.podName rec.pipelineTaskName)
                      child := some tid }], by simp [hsm]⟩
        · rw [if_neg h4]
          exact ⟨[], by simp⟩

theorem anySeq_fold_mono (st : WStatus) (tid : String) :
    ∀ (args : List String) (acc : Bool × Bool × List REdge),
      ∃ l, (args.foldl (anySeqStep st tid) acc).2.2 = acc.2.2 ++ l := by
  intro args
  induction args with
  | nil => intro acc; exact ⟨[], by simp⟩
  | cons a args ih =>
    intro acc
    rw [List.foldl_cons]
    obtain ⟨l0, hl0⟩ := anySeqStep_edges_shape st tid acc a
    obtain ⟨l1, hl1⟩ := ih (anySeqStep st tid acc a)
    exact ⟨l0 ++ l1, by rw [hl1, hl0, List.append_assoc]⟩

theorem anySeqStep_edges_sound (st : WStatus) (tid : String)
    (acc : Bool × Bool × List REdge) (arg : String) :
    ∀ e ∈ (anySeqStep st tid acc arg).2.2, e ∈ acc.2.2 ∨
      ∃ n pr, smGet st n = some pr ∧
        e = { parent := some (jsOrS pr.2.podName pr.1.pipelineTaskName)
              child := some tid } := by
  obtain ⟨b1, b2, es⟩ := acc
  intro e
  rw [anySeqStep]
  simp only
  by_cases h1 : arg == "--taskList"
  · rw [if_pos h1]; exact fun h => Or.inl h
  · rw [if_neg h1]
    by_cases h2 : arg == "-c"
    · rw [if_pos h2]; exact fun h => Or.inl h
    · rw [if_neg h2]
      by_cases h3 : b1
      · rw [if_pos h3]
        simp only
        rw [anySeq_inner_eq]
        intro h
        rcases List.mem_append.mp h with h | h
        · exact Or.inl h
        · obtain ⟨pt, _, hg⟩ := List.mem_filterMap.mp h
          rw [gTL] at hg
          cases hsm : smGet st pt with
          | none => rw [hsm] at hg; simp at hg
          | some pr =>
            rw [hsm] at hg
            simp only [Option.map_some', Option.some.injEq] at hg
            exact Or.inr ⟨pt, pr, hsm, hg.symm⟩
      · rw [if_neg h3]
        by_cases h4 : b2
        · rw [if_pos h4]
          simp only
          cases hsm : smGet st (jsSubstring2 arg (jsIndexOf arg "results_" + 8)
              (jsIndexOf arg "_output")) with
          | none => exact fun h => Or.inl h
          | some pr =>
            obtain ⟨rec, rst⟩ := pr
            intro h
            rcases List.mem_append.mp h with h | h
            · exact Or.inl h
            · rw [List.mem_singleton] at h
              exact Or.inr ⟨_, (rec, rst), hsm, h⟩
        · rw [if_neg h4]; exact fun h => Or.inl h

theorem anySeqEdges_sound (st : WStatus) (tid : String) (args : List String) :
    ∀ e ∈ anySeqEdges st tid args,
      ∃ n pr, smGet st n = some pr ∧
        e = { parent := some (jsOrS pr.2.podName pr.1.pipelineTaskName)
              child := some tid } := by
  rw [anySeqEdges]
  suffices h : ∀ (as : List String) (acc : Bool × Bool × List REdge),
      (∀ e ∈ acc.2.2, ∃ n pr, smGet st n = some pr ∧
        e = { parent := some (jsOrS pr.2.podName pr.1.pipelineTaskName)
              child := some tid }) →
      ∀ e ∈ (as.foldl (anySeqStep st tid) acc).2.2,
        ∃ n pr, smGet st n = some pr ∧
          e = { parent := some (jsOrS pr.2.podName pr.1.pipelineTaskName)
                child := some tid } by
    exact h args (false, false, []) (by intro e he; simp at he)
  intro as
  induction as with
  | nil => intro acc hacc; exact hacc
  | cons a as ih =>
    intro acc hacc
    rw [List.foldl_cons]
    apply ih
    intro e he
    rcases anySeqStep_edges_sound st tid acc a e he with h | h
    · exact hacc e h
    · exact h

theorem beq_false_of_ne {a b : String} (h : a ≠ b) : (a == b) = false :=
  beq_eq_false_iff_ne.mpr h

theorem anySeqEdges_complete_taskList (st : WStatus) (tid : String)
    (pre post : List String) (la : String) (n : String) (pr : RunRecord × RecStatus)
    (h1 : la ≠ "--taskList") (h2 : la ≠ "-c") (hn : n ∈ jsSplitChar la ',')
    (hsm : smGet st n = some pr) :
    ({ parent := some (jsOrS pr.2.podName pr.1.pipelineTaskName)
       child := some tid } : REdge) ∈
      anySeqEdges st tid (pre ++ "--taskList" :: la :: post) := by
  rw [anySeqEdges, List.foldl_append, List.foldl_cons, List.foldl_cons]
  set A := pre.foldl (anySeqStep st tid) (false, false, []) with hA
  obtain ⟨a1, a2, aes⟩ := A
  have hstep1 : anySeqStep st tid (a1, a2, aes) "--taskList" = (true, a2, aes) := by
    rw [anySeqStep]
    simp
  rw [hstep1]
  have hstep2 : anySeqStep st tid (true, a2, aes) la =
      (false, a2, aes ++ (jsSplitChar la ',').filterMap (gTL st tid)) := by
    rw [anySeqStep]
    simp only [beq_false_of_ne h1, beq_false_of_ne h2]
    simp only [Bool.false_eq_true, if_false, if_true]
    rw [anySeq_inner_eq]
  rw [hstep2]
  obtain ⟨l, hl⟩ := anySeq_fold_mono st tid post
      (false, a2, aes ++ (jsSplitChar la ',').filterMap (gTL st tid))
  rw [hl]
  simp only
  have hmem : ({ parent := some (jsOrS pr.2.podName pr.1.pipelineTaskName)
                 child := some tid } : REdge) ∈
      (jsSplitChar la ',').filterMap (gTL st tid) := by
    apply List.mem_filterMap.mpr
    refine ⟨n, hn, ?_⟩
    rw [gTL, hsm]
    rfl
  simp [hmem]

theorem anySeqEdges_complete_condition (st : WStatus) (tid : String)
    (pre post : List String) (ca : String) (pr : RunRecord × RecStatus)
    (h1 : ca ≠ "--taskList") (h2 : ca ≠ "-c")
    (hpre : (pre.foldl (anySeqStep st tid) (false, false, [])).1 = false)
    (hsm : smGet st (jsSubstring2 ca (jsIndexOf ca "results_" + 8)
      (jsIndexOf ca "_output")) = some pr) :
    ({ parent := some (jsOrS pr.2.podName pr.1.pipelineTaskName)
       child := some tid } : REdge) ∈
      anySeqEdges st tid (pre ++ "-c" :: ca :: post) := by
  rw [anySeqEdges, List.foldl_append, List.foldl_cons, List.foldl_cons]
  rcases hF : pre.foldl (anySeqStep st tid) (false, false, []) with ⟨a1, a2, aes⟩
  rw [hF] at hpre
  simp only at hpre
  subst hpre
  have hstep1 : anySeqStep st tid (false, a2, aes) "-c" = (false, true, aes) := by
    rw [anySeqStep]
    simp
  rw [hstep1]
  obtain ⟨rec, rst⟩ := pr
  have hstep2 : anySeqStep st tid (false, true, aes) ca =
      (false, false, aes ++ [{ parent := some (jsOrS rst.podName rec.pipelineTaskName)
                               child := some tid }]) := by
    rw [anySeqStep]
    simp only [beq_false_of_ne h1, beq_false_of_ne h2]
    simp only [Bool.false_eq_true, if_false, if_true, hsm]
  rw [hstep2]
  obtain ⟨l, hl⟩ := anySeq_fold_mono st tid post
      (false, false, aes ++ [{ parent := some (jsOrS rst.podName rec.pipelineTaskName)
                               child := some tid }])
  rw [hl]
  simp

theorem checkParams_edge_sound (st : WStatus) (pp : List PipelineParam)
    (comp : Component) (owner : String) :
    ∀ e ∈ (checkParams st pp comp owner).1,
      ∃ param pt pr, param ∈ comp.params ∧ (decodeParam param.value).task = some pt ∧
        smGet st pt = some pr ∧ firstCondSucceeded pr.2 = true ∧
        e = { parent := pr.2.podName
              child := if owner == "" then componentIdOf st comp owner else some owner } := by
  intro e he
  rw [(checkParams_characterization st pp comp owner).1] at he
  obtain ⟨param, hmem, hg⟩ := List.mem_filterMap.mp he
  rw [gCP] at hg
  cases htr : (decodeParam param.value).taskTruthy with
  | false => rw [htr] at hg; simp at hg
  | true =>
    rw [htr] at hg
    simp only [if_true] at hg
    cases htask : (decodeParam param.value).task with
    | none => rw [htask] at hg; simp at hg
    | some pt =>
      rw [htask] at hg
      simp only at hg
      cases hsm : smGet st pt with
      | none => rw [hsm] at hg; simp at hg
      | some pr =>
        rw [hsm] at hg
        simp only [Option.some_bind] at hg
        cases hfc : firstCondSucceeded pr.2 with
        | false => rw [hfc] at hg; simp at hg
        | true =>
          rw [hfc] at hg
          simp only [if_true, Option.some.injEq] at hg
          exact ⟨param, pt, pr, hmem, htask, hsm, hfc, hg.symm⟩

theorem taskTruthy_of {r : ParamRef} {t : String} (h : r.task = some t) (hne : t ≠ "") :
    r.taskTruthy = true := by
  rw [ParamRef.taskTruthy, h]
  simp [hne]

/-- **C1.**  The gating law for every edge kind `createRuntimeGraph`
produces.  Edges from a task-parameter reference (`checkParams`, both for
tasks and for condition guards) and from an explicit `runAfter`
predecessor appear *only if* the referenced parent task's record in the
status index has its first condition of type `Succeeded`.  Edges from a
when-guard reference and from an any-task aggregator step appear
*whenever* the referenced parent task is present in the status index,
regardless of the parent's condition outcome (the soundness conjuncts for
those two producers require only presence, and the completeness conjuncts
add the edge for every present parent). -/
theorem C1_edge_gating :
    (∀ st pp comp owner, ∀ e ∈ (checkParams st pp comp owner).1,
      ∃ pt pr, (∃ param ∈ comp.params, (decodeParam param.value).task = some pt) ∧
        smGet st pt = some pr ∧ firstCondSucceeded pr.2 = true) ∧
    (∀ st task tid, ∀ e ∈ runAfterEdges st task tid,
      ∃ pt pr, pt ∈ task.runAfter.getD [] ∧ smGet st pt = some pr ∧
        firstCondSucceeded pr.2 = true) ∧
    (∀ st task tid, ∀ c ∈ task.whenClauses, ∀ t pr,
      (decodeParam c.input).task = some t → t ≠ "" → smGet st t = some pr →
      ({ parent := some (jsOrS pr.2.podName pr.1.pipelineTaskName)
         child := some tid } : REdge) ∈ whenEdges st task tid) ∧
    (∀ st tid args, ∀ e ∈ anySeqEdges st tid args,
      ∃ n pr, smGet st n = some pr ∧
        e = { parent := some (jsOrS pr.2.podName pr.1.pipelineTaskName)
              child := some tid }) ∧
    (∀ st tid pre post la n pr, la ≠ "--taskList" → la ≠ "-c" →
      n ∈ jsSplitChar la ',' → smGet st n = some pr →
      ({ parent := some (jsOrS pr.2.podName pr.1.pipelineTaskName)
         child := some tid } : REdge) ∈
        anySeqEdges st tid (pre ++ "--taskList" :: la :: post)) ∧
    (∀ st tid pre post ca pr, ca ≠ "--taskList" → ca ≠ "-c" →
      (pre.foldl (anySeqStep st tid) (false, false, [])).1 = false →
      smGet st (jsSubstring2 ca (jsIndexOf ca "results_" + 8)
        (jsIndexOf ca "_output")) = some pr →
      ({ parent := some (jsOrS pr.2.podName pr.1.pipelineTaskName)
         child := some tid } : REdge) ∈
        anySeqEdges st tid (pre ++ "-c" :: ca :: post)) := by
  refine ⟨?_, ?_, ?_, ?_, ?_, ?_⟩
  · intro st pp comp owner e he
    obtain ⟨param, pt, pr, hmem, htask, hsm, hfc, _⟩ :=
      checkParams_edge_sound st pp comp owner e he
    exact ⟨pt, pr, ⟨param, hmem, htask⟩, hsm, hfc⟩
  · intro st task tid e he
    rw [runAfterEdges_eq] at he
    obtain ⟨pt, hmem, hg⟩ := List.mem_filterMap.mp he
    rw [gRA] at hg
    cases hsm : smGet st pt with
    | none => rw [hsm] at hg; simp at hg
    | some pr =>
      rw [hsm] at hg
      simp only [Option.some_bind] at hg
      cases hfc : firstCondSucceeded pr.2 with
      | false => rw [hfc] at hg; simp at hg
      | true => exact ⟨pt, pr, hmem, hsm, hfc⟩
  · intro st task tid c hc t pr htask hne hsm
    rw [whenEdges_eq]
    apply List.mem_filterMap.mpr
    refine ⟨c, hc, ?_⟩
    rw [gWhen]
    simp only [taskTruthy_of htask hne, if_true, htask, hsm]
    rfl
  · exact fun st tid args => anySeqEdges_sound st tid args
  · intro st tid pre post la n pr h1 h2 hn hsm
    exact anySeqEdges_complete_taskList st tid pre post la n pr h1 h2 hn hsm
  · intro st tid pre post ca pr h1 h2 hpre hsm
    exact anySeqEdges_complete_condition st tid pre post ca pr h1 h2 hpre hsm

/-- **C10.**  For every edge produced from a task-parameter reference or
an explicit `runAfter` predecessor, the edge's parent endpoint is exactly
the parent record's `status.podName` field, with no fallback to the
parent's task name; consequently, when a succeeded parent record has no
pod name (for example a custom run record), the edge's parent identity is
`undefined` (`none`) and differs from the node identity under which that
parent appears in the graph, which falls back to the task name. -/
theorem C10_parent_is_podName :
    (∀ st pp comp owner, ∀ e ∈ (checkParams st pp comp owner).1,
      ∃ pt pr, smGet st pt = some pr ∧ firstCondSucceeded pr.2 = true ∧
        e.parent = pr.2.podName ∧
        (pr.2.podName = none →
          e.parent = none ∧ nodeIdOf st pt = pt ∧ e.parent ≠ some (nodeIdOf st pt))) ∧
    (∀ st task tid, ∀ e ∈ runAfterEdges st task tid,
      ∃ pt pr, smGet st pt = some pr ∧ firstCondSucceeded pr.2 = true ∧
        e.parent = pr.2.podName ∧
        (pr.2.podName = none →
          e.parent = none ∧ nodeIdOf st pt = pt ∧ e.parent ≠ some (nodeIdOf st pt))) := by
  have hnode : ∀ (st : WStatus) (pt : String) (pr : RunRecord × RecStatus),
      smGet st pt = some pr → pr.2.podName = none → nodeIdOf st pt = pt := by
    intro st pt pr hsm hpod
    obtain ⟨rec, rst⟩ := pr
    simp only at hpod
    rw [nodeIdOf, hsm]
    simp only [hpod]
  constructor
  · intro st pp comp owner e he
    obtain ⟨param, pt, pr, hmem, htask, hsm, hfc, hedge⟩ :=
      checkParams_edge_sound st pp comp owner e he
    refine ⟨pt, pr, hsm, hfc, by rw [hedge], ?_⟩
    intro hpod
    refine ⟨by rw [hedge, hpod], hnode st pt pr hsm hpod, ?_⟩
    rw [hedge, hpod]
    simp
  · intro st task tid e he
    rw [runAfterEdges_eq] at he
    obtain ⟨pt, hmem, hg⟩ := List.mem_filterMap.mp he
    rw [gRA] at hg
    cases hsm : smGet st pt with
    | none => rw [hsm] at hg; simp at hg
    | some pr =>
      rw [hsm] at hg
      simp only [Option.some_bind] at hg
      cases hfc : firstCondSucceeded pr.2 with
      | false => rw [hfc] at hg; simp at hg
      | true =>
        rw [hfc] at hg
        simp only [if_true, Option.some.injEq] at hg
        refine ⟨pt, pr, hsm, hfc, by rw [← hg], ?_⟩
        intro hpod
        refine ⟨by rw [← hg, hpod], hnode st pt pr hsm hpod, ?_⟩
        rw [← hg, hpod]
        simp

/-! ## Concrete data for the witnesses of C1 and C10 -/

/-- A succeeded task-run record for task `P` with a pod name and a
recorded result. -/
def recP : RunRecord :=
  { pipelineTaskName := "P"
    status := some
      { podName := some "pod-p"
        conditions := some [{ condType := "Succeeded", reason := "Succeeded" }]
        taskResults := some [{ name := "out", value := "42" }]
        taskSpec := none }
    taskRunId := none }

/-- A succeeded custom-run record for task `Q` without a pod name. -/
def recQ : RunRecord :=
  { pipelineTaskName := "Q"
    status := some
      { podName := none
        conditions := some [{ condType := "Succeeded", reason := "Succeeded" }]
        taskResults := none
        taskSpec := none }
    taskRunId := none }

def stW : WStatus :=
  { taskRuns := some [("idP", recP)], runs := some [("idQ", recQ)] }

/-- A task guarded by a `when` clause referencing `P`'s result. -/
def taskWhenP : Task :=
  { name := "B"
    params := []
    whenClauses := [{ input := "$(tasks.P.results.out)" }]
    conditions := []
    runAfter := none
    taskSpec := none }

/-- A task with an explicit `runAfter` predecessor `Q`. -/
def taskAfterQ : Task :=
  { name := "D"
    params := []
    whenClauses := []
    conditions := []
    runAfter := some ["Q"]
    taskSpec := none }

theorem C1_witness :
    ({ parent := some "pod-p", child := some "B" } : REdge) ∈
      whenEdges stW taskWhenP "B" := by
  have h := C1_edge_gating.2.2.1 stW taskWhenP "B"
    { input := "$(tasks.P.results.out)" } (by decide) "P"
    (recP, { podName := some "pod-p"
             conditions := some [{ condType := "Succeeded", reason := "Succeeded" }]
             taskResults := some [{ name := "out", value := "42" }]
             taskSpec := none })
    (by decide) (by decide) (by decide)
  simpa using h

theorem C10_witness :
    ∃ pt pr, smGet stW pt = some pr ∧ firstCondSucceeded pr.2 = true ∧
      (REdge.mk none (some "d-id")).parent = pr.2.podName ∧
      (pr.2.podName = none →
        (REdge.mk none (some "d-id")).parent = none ∧ nodeIdOf stW pt = pt ∧
        (REdge.mk none (some "d-id")).parent ≠ some (nodeIdOf stW pt)) :=
  C10_parent_is_podName.2 stW taskAfterQ "d-id" (REdge.mk none (some "d-id")) (by decide)

theorem C6_witness :
    decodeParam "$(tasks.mytask.results.out)" =
      { task := some "mytask", param := some "out" } := by
  have h := (C6_decodeParam_dotted_shape "$(tasks.mytask.results.out)" (by decide)).1
  rw [h]
  decide

/-! ## Claim C8: cached-run-id substitution in artifact keys -/

theorem foldl_if_const {α : Type} (p : α → Bool) (c : String) :
    ∀ (l : List α) (init : String),
      l.foldl (fun pid x => if p x then c else pid) init =
        if l.any p then c else init := by
  intro l
  induction l with
  | nil => intro init; simp
  | cons x xs ih =>
    intro init
    rw [List.foldl_cons, ih]
    cases hp : p x with
    | true => simp [hp]
    | false => simp [hp]

theorem pipelineRunIDFor_spec (wfName : Option String) (tasks : List Task)
    (cached : Option String) (producingTask : Option String) :
    pipelineRunIDFor wfName tasks cached producingTask =
      if tasks.any (fun task =>
          producingTask == some task.name && taskCacheEnabled task && cachedTruthy cached)
      then cached.getD ""
      else jsOrS wfName "" := by
  rw [pipelineRunIDFor]
  exact foldl_if_const _ _ tasks (jsOrS wfName "")

/-- **C8.**  For every input artifact whose producing (parent) task
carries the cache-enabled label, when a (truthy) `cachedPipelineRun` id is
supplied the resolved storage key uses the cached run id in the path
segment in place of the workflow's run name; when no `cachedPipelineRun`
id is supplied, or no producing task is cache-enabled, the workflow's own
run name (`metadata.name || ''`) is used.  The same substitution rule
applies to output-artifact keys via replacement of the first
`$PIPELINERUN` placeholder occurrence, with the producing task read from
the raw key's third `'/'`-segment. -/
theorem C8_cache_substitution :
    (∀ wfName tasks cached parentTask artName c,
      cached = some c → c ≠ "" →
      (∃ t ∈ tasks, t.name = parentTask ∧ taskCacheEnabled t = true) →
      inputArtifactKey wfName tasks cached parentTask artName =
        "artifacts/" ++ c ++ "/" ++ parentTask ++ "/" ++
          jsSubstring1 artName ((parentTask.data.length : Int) + 1) ++ ".tgz") ∧
    (∀ wfName tasks cached parentTask artName,
      cachedTruthy cached = false →
      inputArtifactKey wfName tasks cached parentTask artName =
        "artifacts/" ++ jsOrS wfName "" ++ "/" ++ parentTask ++ "/" ++
          jsSubstring1 artName ((parentTask.data.length : Int) + 1) ++ ".tgz") ∧
    (∀ wfName tasks cached parentTask artName,
      (∀ t ∈ tasks, t.name = parentTask → taskCacheEnabled t = false) →
      inputArtifactKey wfName tasks cached parentTask artName =
        "artifacts/" ++ jsOrS wfName "" ++ "/" ++ parentTask ++ "/" ++
          jsSubstring1 artName ((parentTask.data.length : Int) + 1) ++ ".tgz") ∧
    (∀ wfName tasks cached rawKey c,
      cached = some c → c ≠ "" →
      (∃ t ∈ tasks, some t.name = (jsSplitChar rawKey '/')[2]? ∧ taskCacheEnabled t = true) →
      outputArtifactKey wfName tasks cached rawKey =
        jsReplaceFirst rawKey "$PIPELINERUN" c) ∧
    (∀ wfName tasks cached rawKey,
      cachedTruthy cached = false →
      outputArtifactKey wfName tasks cached rawKey =
        jsReplaceFirst rawKey "$PIPELINERUN" (jsOrS wfName "")) := by
  have hany_true : ∀ (tasks : List Task) (cached : Option String) (c : String)
      (prod : Option String), cached = some c → c ≠ "" →
      (∃ t ∈ tasks, some t.name = prod ∧ taskCacheEnabled t = true) →
      tasks.any (fun task =>
        prod == some task.name && taskCacheEnabled task && cachedTruthy cached) = true := by
    intro tasks cached c prod hc hne ⟨t, hmem, hname, hcache⟩
    apply List.any_eq_true.mpr
    refine ⟨t, hmem, ?_⟩
    rw [← hname, hcache, hc]
    simp only [beq_self_eq_true, Bool.true_and, Bool.and_true]
    rw [cachedTruthy]
    simp [hne]
  have hany_false_cached : ∀ (tasks : List Task) (cached : Option String)
      (prod : Option String), cachedTruthy cached = false →
      tasks.any (fun task =>
        prod == some task.name && taskCacheEnabled task && cachedTruthy cached) = false := by
    intro tasks cached prod hc
    apply List.any_eq_false.mpr
    intro t _
    rw [hc]
    simp
  have hany_false_cache : ∀ (tasks : List Task) (cached : Option String) (pT : String),
      (∀ t ∈ tasks, t.name = pT → taskCacheEnabled t = false) →
      tasks.any (fun task =>
        some pT == some task.name && taskCacheEnabled task && cachedTruthy cached) = false := by
    intro tasks cached pT h
    apply List.any_eq_false.mpr
    intro t hmem
    by_cases hname : pT = t.name
    · rw [h t hmem hname.symm]
      simp
    · have : (some pT == some t.name) = false := by
        apply beq_eq_false_iff_ne.mpr
        simp [hname]
      rw [this]
      simp
  refine ⟨?_, ?_, ?_, ?_, ?_⟩
  · intro wfName tasks cached parentTask artName c hc hne hex
    rw [inputArtifactKey, pipelineRunIDFor_spec]
    rw [hany_true tasks cached c (some parentTask) hc hne
      (by obtain ⟨t, hm, hn, hcache⟩ := hex; exact ⟨t, hm, by rw [hn], hcache⟩)]
    rw [hc]
    simp
  · intro wfName tasks cached parentTask artName hct
    rw [inputArtifactKey, pipelineRunIDFor_spec, hany_false_cached tasks cached _ hct]
    simp
  · intro wfName tasks cached parentTask artName hnc
    rw [inputArtifactKey, pipelineRunIDFor_spec, hany_false_cache tasks cached parentTask hnc]
    simp
  · intro wfName tasks cached rawKey c hc hne hex
    rw [outputArtifactKey]
    rw [pipelineRunIDFor_spec]
    rw [hany_true tasks cached c ((jsSplitChar rawKey '/')[2]?) hc hne hex]
    rw [hc]
    rfl
  · intro wfName tasks cached rawKey hct
    rw [outputArtifactKey]
    rw [pipelineRunIDFor_spec, hany_false_cached tasks cached _ hct]
    rfl

/-- A declared task flagged cache-enabled. -/
def taskCached : Task :=
  { name := "P"
    params := []
    whenClauses := []
    conditions := []
    runAfter := none
    taskSpec := some
      { steps := none
        metadataLabels := some [("pipelines.kubeflow.org/cache_enabled", "true")] } }

theorem C8_witness :
    inputArtifactKey (some "myrun") [taskCached] (some "cachedrun") "P" "P-out" =
      "artifacts/cachedrun/P/out.tgz" ∧
    inputArtifactKey (some "myrun") [taskCached] none "P" "P-out" =
      "artifacts/myrun/P/out.tgz" ∧
    outputArtifactKey (some "myrun") [] none "artifacts/$PIPELINERUN/P/out.tgz" =
      "artifacts/myrun/P/out.tgz" := by
  refine ⟨?_, ?_, ?_⟩
  · have h := C8_cache_substitution.1 (some "myrun") [taskCached] (some "cachedrun")
      "P" "P-out" "cachedrun" rfl (by decide) ⟨taskCached, by decide, rfl, by decide⟩
    rw [h]
    decide
  · have h := C8_cache_substitution.2.1 (some "myrun") [taskCached] none "P" "P-out"
      (by decide)
    rw [h]
    decide
  · have h := C8_cache_substitution.2.2.2.2 (some "myrun") [] none
      "artifacts/$PIPELINERUN/P/out.tgz" (by decide)
    rw [h]
    decide

/-! ## Claim C3: congruence of every producer under `stEquiv` -/

theorem nodeIdOf_congr {s t : WStatus} (h : stEquiv s t) (name : String) :
    nodeIdOf s name = nodeIdOf t name := by
  rw [nodeIdOf, nodeIdOf]
  cases hs : smGet s name with
  | none =>
    rw [smGet_none_congr h name hs]
  | some pr =>
    obtain ⟨q, hq, hproj⟩ := smGet_some_congr h name hs
    obtain ⟨-, hpod, -, -⟩ := firstCondSucceeded_of_proj hproj
    obtain ⟨r1, rst1⟩ := pr
    obtain ⟨r2, rst2⟩ := q
    simp only at hpod
    rw [hq]
    simp only [hpod]

theorem componentIdOf_congr {s t : WStatus} (h : stEquiv s t) (comp : Component)
    (owner : String) :
    componentIdOf s comp owner = componentIdOf t comp owner := by
  rw [componentIdOf, componentIdOf]
  by_cases how : owner != ""
  · rw [if_pos how, if_pos how]
  · rw [if_neg how, if_neg how]
    cases hn : comp.name with
    | none => rfl
    | some n =>
      simp only [smGetO, hn, Option.some_bind]
      cases hs : smGet s n with
      | none => rw [smGet_none_congr h n hs]
      | some pr =>
        obtain ⟨q, hq, hproj⟩ := smGet_some_congr h n hs
        obtain ⟨-, hpod, -, -⟩ := firstCondSucceeded_of_proj hproj
        obtain ⟨r1, rst1⟩ := pr
        obtain ⟨r2, rst2⟩ := q
        simp only at hpod
        rw [hq]
        simp only [hpod]

theorem gCP_congr {s t : WStatus} (h : stEquiv s t) (owner : String)
    (childId : Option String) (param : TaskParam) :
    gCP s owner childId param = gCP t owner childId param := by
  rw [gCP, gCP]
  cases htr : (decodeParam param.value).taskTruthy with
  | false => simp [htr]
  | true =>
    simp only [htr, if_true]
    cases htask : (decodeParam param.value).task with
    | none => rfl
    | some pt =>
      simp only
      cases hs : smGet s pt with
      | none => rw [smGet_none_congr h pt hs]
      | some pr =>
        obtain ⟨q, hq, hproj⟩ := smGet_some_congr h pt hs
        obtain ⟨hsucc, hpod, -, -⟩ := firstCondSucceeded_of_proj hproj
        obtain ⟨r1, rst1⟩ := pr
        obtain ⟨r2, rst2⟩ := q
        simp only at hpod hsucc
        rw [hq]
        simp only [Option.some_bind, hsucc, hpod]

theorem gWhen_congr {s t : WStatus} (h : stEquiv s t) (tid : String) (c : WhenClause) :
    gWhen s tid c = gWhen t tid c := by
  rw [gWhen, gWhen]
  cases htr : (decodeParam c.input).taskTruthy with
  | false => simp [htr]
  | true =>
    simp only [htr, if_true]
    cases htask : (decodeParam c.input).task with
    | none => rfl
    | some pt =>
      simp only
      cases hs : smGet s pt with
      | none => rw [smGet_none_congr h pt hs]
      | some pr =>
        obtain ⟨q, hq, hproj⟩ := smGet_some_congr h pt hs
        obtain ⟨-, hpod, hname, -⟩ := firstCondSucceeded_of_proj hproj
        obtain ⟨r1, rst1⟩ := pr
        obtain ⟨r2, rst2⟩ := q
        simp only at hpod hname
        rw [hq]
        simp only [Option.map_some', hpod, hname]

theorem gRA_congr {s t : WStatus} (h : stEquiv s t) (tid : String) (pt : String) :
    gRA s tid pt = gRA t tid pt := by
  rw [gRA, gRA]
  cases hs : smGet s pt with
  | none => rw [smGet_none_congr h pt hs]
  | some pr =>
    obtain ⟨q, hq, hproj⟩ := smGet_some_congr h pt hs
    obtain ⟨hsucc, hpod, -, -⟩ := firstCondSucceeded_of_proj hproj
    obtain ⟨r1, rst1⟩ := pr
    obtain ⟨r2, rst2⟩ := q
    simp only at hpod hsucc
    rw [hq]
    simp only [Option.some_bind, hsucc, hpod]

theorem gTL_congr {s t : WStatus} (h : stEquiv s t) (tid : String) (pt : String) :
    gTL s tid pt = gTL t tid pt := by
  rw [gTL, gTL]
  cases hs : smGet s pt with
  | none => rw [smGet_none_congr h pt hs]
  | some pr =>
    obtain ⟨q, hq, hproj⟩ := smGet_some_congr h pt hs
    obtain ⟨-, hpod, hname, -⟩ := firstCondSucceeded_of_proj hproj
    obtain ⟨r1, rst1⟩ := pr
    obtain ⟨r2, rst2⟩ := q
    simp only at hpod hname
    rw [hq]
    simp only [Option.map_some', hpod, hname]

theorem whenEdges_congr {s t : WStatus} (h : stEquiv s t) (task : Task) (tid : String) :
    whenEdges s task tid = whenEdges t task tid := by
  rw [whenEdges_eq, whenEdges_eq]
  exact List.filterMap_congr (fun c _ => gWhen_congr h tid c)

theorem runAfterEdges_congr {s t : WStatus} (h : stEquiv s t) (task : Task)
    (tid : String) :
    runAfterEdges s task tid = runAfterEdges t task tid := by
  rw [runAfterEdges_eq, runAfterEdges_eq]
  exact List.filterMap_congr (fun pt _ => gRA_congr h tid pt)

theorem anySeqStep_congr {s t : WStatus} (h : stEquiv s t) (tid : String)
    (acc : Bool × Bool × List REdge) (arg : String) :
    anySeqStep s tid acc arg = anySeqStep t tid acc arg := by
  obtain ⟨b1, b2, es⟩ := acc
  rw [anySeqStep, anySeqStep]
  simp only
  by_cases h1 : arg == "--taskList"
  · rw [if_pos h1, if_pos h1]
  · rw [if_neg h1, if_neg h1]
    by_cases h2 : arg == "-c"
    · rw [if_pos h2, if_pos h2]
    · rw [if_neg h2, if_neg h2]
      by_cases h3 : b1
      · rw [if_pos h3, if_pos h3]
        rw [anySeq_inner_eq, anySeq_inner_eq]
        rw [List.filterMap_congr (fun pt _ => gTL_congr h tid pt)]
      · rw [if_neg h3, if_neg h3]
        by_cases h4 : b2
        · rw [if_pos h4, if_pos h4]
          cases hs : smGet s (jsSubstring2 arg (jsIndexOf arg "results_" + 8)
              (jsIndexOf arg "_output")) with
          | none => rw [smGet_none_congr h _ hs]
          | some pr =>
            obtain ⟨q, hq, hproj⟩ := smGet_some_congr h _ hs
            obtain ⟨rec, rst⟩ := pr
            obtain ⟨rec2, rst2⟩ := q
            obtain ⟨-, hpod, hname, -⟩ := firstCondSucceeded_of_proj hproj
            simp only at hpod hname
            rw [hq]
            simp only [hpod, hname]
        · rw [if_neg h4, if_neg h4]

theorem anySeqEdges_congr {s t : WStatus} (h : stEquiv s t) (tid : String)
    (args : List String) :
    anySeqEdges s tid args = anySeqEdges t tid args := by
  rw [anySeqEdges, anySeqEdges]
  rw [List.foldl_ext (anySeqStep s tid) (anySeqStep t tid) _
    (fun acc arg _ => anySeqStep_congr h tid acc arg)]

theorem any_ext {α : Type} (p q : α → Bool) :
    ∀ l : List α, (∀ x ∈ l, p x = q x) → l.any p = l.any q := by
  intro l
  induction l with
  | nil => intro _; rfl
  | cons x xs ih =>
    intro h
    rw [List.any_cons, List.any_cons, h x (by simp), ih (fun y hy => h y (by simp [hy]))]

/-- What one task contributes to the condition-task prepass
(lines 93–107). -/
def gCT (st : WStatus) (task : Task) : Option String :=
  if (smGet st task.name).isSome then none
  else if task.whenClauses.any (fun c =>
      let p := decodeParam c.input
      p.taskTruthy && (match p.task with
        | some t => (smGet st t).isSome
        | none => false)) then some task.name
  else none

theorem conditionTaskNames_eq (st : WStatus) (tasks : List Task) :
    conditionTaskNames st tasks = tasks.filterMap (gCT st) := by
  rw [conditionTaskNames]
  have hext : tasks.foldl (fun acc task =>
      if (smGet st task.name).isSome then acc
      else if task.whenClauses.any (fun c =>
          let p := decodeParam c.input
          p.taskTruthy && (match p.task with
            | some t => (smGet st t).isSome
            | none => false)) then acc ++ [task.name]
      else acc) [] =
      tasks.foldl (fun acc task => acc ++ (gCT st task).toList) [] := by
    apply List.foldl_ext
    intro acc task _
    rw [gCT]
    by_cases h1 : (smGet st task.name).isSome
    · simp [h1]
    · simp only [h1, Bool.false_eq_true, if_false]
      by_cases h2 : task.whenClauses.any (fun c =>
          let p := decodeParam c.input
          p.taskTruthy && (match p.task with
            | some t => (smGet st t).isSome
            | none => false))
      · simp [h2]
      · simp [h2]
  rw [hext, foldl_opt_append]
  rfl

theorem gCT_congr {s t : WStatus} (h : stEquiv s t) (task : Task) :
    gCT s task = gCT t task := by
  rw [gCT, gCT]
  rw [smGet_isSome_congr h task.name]
  by_cases h1 : (smGet t task.name).isSome
  · rw [if_pos h1, if_pos h1]
  · rw [if_neg h1, if_neg h1]
    have hany : task.whenClauses.any (fun c =>
        let p := decodeParam c.input
        p.taskTruthy && (match p.task with
          | some u => (smGet s u).isSome
          | none => false)) =
        task.whenClauses.any (fun c =>
        let p := decodeParam c.input
        p.taskTruthy && (match p.task with
          | some u => (smGet t u).isSome
          | none => false)) := by
      apply any_ext
      intro c _
      simp only
      cases htask : (decodeParam c.input).task with
      | none => simp [htask]
      | some u =>
        simp only [htask]
        rw [smGet_isSome_congr h u]
    rw [hany]

theorem conditionTaskNames_congr {s t : WStatus} (h : stEquiv s t)
    (tasks : List Task) :
    conditionTaskNames s tasks = conditionTaskNames t tasks := by
  rw [conditionTaskNames_eq, conditionTaskNames_eq]
  exact List.filterMap_congr (fun task _ => gCT_congr h task)

theorem checkParams_edges_congr {s t : WStatus} (h : stEquiv s t)
    (pp : List PipelineParam) (comp : Component) (owner : String) :
    (checkParams s pp comp owner).1 = (checkParams t pp comp owner).1 := by
  rw [(checkParams_characterization s pp comp owner).1,
    (checkParams_characterization t pp comp owner).1]
  rw [componentIdOf_congr h comp owner]
  exact List.filterMap_congr (fun param _ => gCP_congr h owner _ param)

/-- What one materialized task contributes to the graph — its node
identity and its edges — as a function of the initial (post-injection)
status view.  `processTask_eq` shows the main loop commits exactly this,
despite the interleaved write-backs. -/
def taskContribution (pp : List PipelineParam) (condNames : List String)
    (st : WStatus) (task : Task) : List String × List REdge :=
  if (smGet st task.name).isSome || condNames.contains task.name then
    let taskId := nodeIdOf st task.name
    ([taskId],
     (checkParams st pp task.toComponent "").1 ++
       task.conditions.flatMap (fun cond => (checkParams st pp cond.toComponent taskId).1) ++
       whenEdges st task taskId ++
       (if isAnyTask task then anySeqEdges st taskId (anyTaskArgs task) else []) ++
       runAfterEdges st task taskId)
  else ([], [])

theorem conditions_fold_eq (pp : List PipelineParam) (tid : String) (st0 : WStatus) :
    ∀ (conds : List CondGuard) (p0 : List REdge × WStatus), stEquiv p0.2 st0 →
      (conds.foldl (fun (p : List REdge × WStatus) cond =>
        let r := checkParams p.2 pp cond.toComponent tid
        (p.1 ++ r.1, r.2)) p0).1 =
        p0.1 ++ conds.flatMap (fun cond => (checkParams st0 pp cond.toComponent tid).1) ∧
      stEquiv (conds.foldl (fun (p : List REdge × WStatus) cond =>
        let r := checkParams p.2 pp cond.toComponent tid
        (p.1 ++ r.1, r.2)) p0).2 st0 := by
  intro conds
  induction conds with
  | nil =>
    intro p0 h0
    exact ⟨by simp, h0⟩
  | cons c cs ih =>
    intro p0 h0
    rw [List.foldl_cons]
    have hstep2 : stEquiv (p0.1 ++ (checkParams p0.2 pp c.toComponent tid).1,
        (checkParams p0.2 pp c.toComponent tid).2).2 st0 := by
      exact stEquiv_trans (checkParams_characterization p0.2 pp c.toComponent tid).2 h0
    obtain ⟨h1, h2⟩ := ih _ hstep2
    refine ⟨?_, h2⟩
    rw [h1]
    simp only
    rw [checkParams_edges_congr h0 pp c.toComponent tid]
    rw [List.flatMap_cons, List.append_assoc]

theorem processTask_eq (pp : List PipelineParam) (condN : List String) (st0 : WStatus)
    (acc : GAcc) (task : Task) (h : stEquiv acc.st st0) :
    (processTask pp condN acc task).nodes =
      acc.nodes ++ (taskContribution pp condN st0 task).1 ∧
    (processTask pp condN acc task).edges =
      acc.edges ++ (taskContribution pp condN st0 task).2 ∧
    stEquiv (processTask pp condN acc task).st st0 := by
  rw [processTask, taskContribution]
  rw [smGet_isSome_congr h task.name]
  by_cases hmat : ((smGet st0 task.name).isSome || condN.contains task.name) = true
  case neg =>
    rw [if_neg hmat, if_neg hmat]
    exact ⟨by simp, by simp, h⟩
  case pos =>
    rw [if_pos hmat, if_pos hmat]
    simp only
    have htid := nodeIdOf_congr h task.name
    rw [htid]
    have hcp1 := checkParams_characterization acc.st pp task.toComponent ""
    have hcp1e := checkParams_edges_congr h pp task.toComponent ""
    have hcp1st : stEquiv (checkParams acc.st pp task.toComponent "").2 st0 :=
      stEquiv_trans hcp1.2 h
    obtain ⟨hfold1, hfold2⟩ := conditions_fold_eq pp (nodeIdOf st0 task.name) st0
      task.conditions (checkParams acc.st pp task.toComponent "") hcp1st
    refine ⟨by simp, ?_, hfold2⟩
    rw [hfold1, hcp1e]
    rw [whenEdges_congr hfold2 task, runAfterEdges_congr hfold2 task]
    by_cases hany : isAnyTask task = true
    · rw [if_pos hany, if_pos hany]
      rw [anySeqEdges_congr hfold2 (nodeIdOf st0 task.name) (anyTaskArgs task)]
      simp [List.append_assoc]
    · rw [if_neg hany, if_neg hany]
      simp [List.append_assoc]

theorem fold_processTask_formula (pp : List PipelineParam) (condN : List String)
    (st0 : WStatus) :
    ∀ (tasks : List Task) (acc : GAcc), stEquiv acc.st st0 →
      (tasks.foldl (processTask pp condN) acc).nodes =
        acc.nodes ++ tasks.flatMap (fun t => (taskContribution pp condN st0 t).1) ∧
      (tasks.foldl (processTask pp condN) acc).edges =
        acc.edges ++ tasks.flatMap (fun t => (taskContribution pp condN st0 t).2) ∧
      stEquiv (tasks.foldl (processTask pp condN) acc).st st0 := by
  intro tasks
  induction tasks with
  | nil => intro acc h; exact ⟨by simp, by simp, h⟩
  | cons t ts ih =>
    intro acc h
    rw [List.foldl_cons]
    obtain ⟨h1, h2, h3⟩ := processTask_eq pp condN st0 acc t h
    obtain ⟨g1, g2, g3⟩ := ih (processTask pp condN acc t) h3
    refine ⟨?_, ?_, g3⟩
    · rw [g1, h1, List.flatMap_cons, List.append_assoc]
    · rw [g2, h2, List.flatMap_cons, List.append_assoc]

/-- The declared task list the main loop iterates: `tasks ++ finally`. -/
def declaredTasks (w : Workflow) : List Task :=
  w.spec.pipelineSpec.tasks ++ w.spec.pipelineSpec.finallyTasks

/-- Closed form of `createRuntimeGraph` on documents that pass the early
return: each task contributes independently, as a function of the initial
(post-`taskRunId`-injection) status view, and the final document differs
from the input only in fields the graph computation never reads. -/
theorem createRuntimeGraph_formula (w : Workflow) (h : w.status.taskRuns.isNone = false) :
    (createRuntimeGraph w).1.nodes =
      (declaredTasks w).flatMap (fun t => (taskContribution w.spec.params
        (conditionTaskNames (injectIds w.status) (declaredTasks w))
        (injectIds w.status) t).1) ∧
    (createRuntimeGraph w).1.edges =
      (declaredTasks w).flatMap (fun t => (taskContribution w.spec.params
        (conditionTaskNames (injectIds w.status) (declaredTasks w))
        (injectIds w.status) t).2) ∧
    stEquiv (createRuntimeGraph w).2.status w.status ∧
    (createRuntimeGraph w).2.spec = w.spec := by
  rw [createRuntimeGraph, h]
  simp only [Bool.false_eq_true, if_false, declaredTasks]
  obtain ⟨f1, f2, f3⟩ := fold_processTask_formula w.spec.params
    (conditionTaskNames (injectIds w.status)
      (w.spec.pipelineSpec.tasks ++ w.spec.pipelineSpec.finallyTasks))
    (injectIds w.status)
    (w.spec.pipelineSpec.tasks ++ w.spec.pipelineSpec.finallyTasks)
    { nodes := [], edges := [], st := injectIds w.status }
    (stEquiv_refl (injectIds w.status))
  refine ⟨by simpa using f1, by simpa using f2,
    stEquiv_trans f3 (stEquiv_injectIds w.status), trivial⟩

theorem taskContribution_congr_st {s t : WStatus} (h : stEquiv s t)
    (pp : List PipelineParam) (condN : List String) (task : Task) :
    taskContribution pp condN s task = taskContribution pp condN t task := by
  rw [taskContribution, taskContribution, smGet_isSome_congr h task.name]
  by_cases hmat : ((smGet t task.name).isSome || condN.contains task.name) = true
  case neg => rw [if_neg hmat, if_neg hmat]
  case pos =>
    rw [if_pos hmat, if_pos hmat]
    simp only
    rw [nodeIdOf_congr h task.name]
    rw [checkParams_edges_congr h pp task.toComponent ""]
    rw [List.flatMap_congr
      (fun c _ => checkParams_edges_congr h pp c.toComponent (nodeIdOf t task.name))]
    rw [whenEdges_congr h task (nodeIdOf t task.name)]
    rw [runAfterEdges_congr h task (nodeIdOf t task.name)]
    by_cases hany : isAnyTask task = true
    · rw [if_pos hany, if_pos hany,
        anySeqEdges_congr h (nodeIdOf t task.name) (anyTaskArgs task)]
    · rw [if_neg hany, if_neg hany]

theorem taskContribution_congr_names (pp : List PipelineParam)
    {cn1 cn2 : List String} (hc : ∀ x, cn1.contains x = cn2.contains x)
    (st : WStatus) (task : Task) :
    taskContribution pp cn1 st task = taskContribution pp cn2 st task := by
  rw [taskContribution, taskContribution, hc task.name]

theorem contains_eq_of_perm {l1 l2 : List String} (h : l1.Perm l2) (x : String) :
    l1.contains x = l2.contains x := by
  cases h1 : l1.contains x with
  | true =>
    have hm : x ∈ l1 := List.elem_iff.mp h1
    exact (List.elem_iff.mpr ((h.mem_iff).mp hm)).symm
  | false =>
    cases h2 : l2.contains x with
    | false => rfl
    | true =>
      have hm : x ∈ l2 := List.elem_iff.mp h2
      have hmem : x ∈ l1 := (h.mem_iff).mpr hm
      have hc1 : l1.contains x = true := List.elem_iff.mpr hmem
      rw [hc1] at h1
      exact h1.symm

theorem stEquiv_isNone {s t : WStatus} (h : stEquiv s t) :
    s.taskRuns.isNone = t.taskRuns.isNone := by
  obtain ⟨h1, -⟩ := h
  cases hs : s.taskRuns <;> cases ht : t.taskRuns <;> rw [hs, ht] at h1 <;> simp_all

/-- **C3.**  The node set and edge set produced by `createRuntimeGraph`
are unchanged under any permutation of the declared task list (`tasks ++
finally`, with the parameters and status document held fixed), and
re-running `createRuntimeGraph` on the same already-once-processed
document — the document as mutated by the first run's `taskRunId`
injection and resolved-value write-backs — yields an identical node/edge
set. -/
theorem C3_perm_invariant_idempotent (w w' : Workflow)
    (hp : w'.spec.params = w.spec.params)
    (hs : w'.status = w.status)
    (ht : (declaredTasks w').Perm (declaredTasks w)) :
    (nodeSet (createRuntimeGraph w').1 = nodeSet (createRuntimeGraph w).1 ∧
     edgeSet (createRuntimeGraph w').1 = edgeSet (createRuntimeGraph w).1) ∧
    (nodeSet (createRuntimeGraph (createRuntimeGraph w).2).1 =
       nodeSet (createRuntimeGraph w).1 ∧
     edgeSet (createRuntimeGraph (createRuntimeGraph w).2).1 =
       edgeSet (createRuntimeGraph w).1) := by
  by_cases h0 : w.status.taskRuns.isNone = true
  case pos =>
    have hw : createRuntimeGraph w = ({ nodes := [], edges := [] }, w) := by
      rw [createRuntimeGraph, h0]
      simp
    have hw' : createRuntimeGraph w' = ({ nodes := [], edges := [] }, w') := by
      rw [createRuntimeGraph]
      rw [hs, h0]
      simp
    have hrerun : createRuntimeGraph (createRuntimeGraph w).2 =
        ({ nodes := [], edges := [] }, w) := by
      rw [hw]
      exact hw
    refine ⟨⟨?_, ?_⟩, ?_, ?_⟩
    · rw [hw, hw']
    · rw [hw, hw']
    · rw [hrerun, hw]
    · rw [hrerun, hw]
  case neg =>
    have h0f : w.status.taskRuns.isNone = false := Bool.of_not_eq_true h0
    have h0f' : w'.status.taskRuns.isNone = false := by rw [hs]; exact h0f
    obtain ⟨n1, e1, st1, sp1⟩ := createRuntimeGraph_formula w h0f
    obtain ⟨n1', e1', -, -⟩ := createRuntimeGraph_formula w' h0f'
    -- the permutation part
    have hst0 : injectIds w'.status = injectIds w.status := by rw [hs]
    have hcontains : ∀ x,
        (conditionTaskNames (injectIds w.status) (declaredTasks w')).contains x =
        (conditionTaskNames (injectIds w.status) (declaredTasks w)).contains x := by
      intro x
      apply contains_eq_of_perm
      rw [conditionTaskNames_eq, conditionTaskNames_eq]
      exact ht.filterMap (gCT (injectIds w.status))
    have hcontrib : ∀ task,
        taskContribution w'.spec.params
          (conditionTaskNames (injectIds w'.status) (declaredTasks w'))
          (injectIds w'.status) task =
        taskContribution w.spec.params
          (conditionTaskNames (injectIds w.status) (declaredTasks w))
          (injectIds w.status) task := by
      intro task
      rw [hp, hst0]
      exact taskContribution_congr_names w.spec.params hcontains (injectIds w.status) task
    have hnodesperm : (createRuntimeGraph w').1.nodes.Perm (createRuntimeGraph w).1.nodes := by
      rw [n1, n1']
      rw [List.flatMap_congr (fun task _ => congrArg Prod.fst (hcontrib task))]
      exact ht.flatMap_right _
    have hedgesperm : (createRuntimeGraph w').1.edges.Perm (createRuntimeGraph w).1.edges := by
      rw [e1, e1']
      rw [List.flatMap_congr (fun task _ => congrArg Prod.snd (hcontrib task))]
      exact ht.flatMap_right _
    -- the idempotence part
    have h02 : (createRuntimeGraph w).2.status.taskRuns.isNone = false := by
      rw [stEquiv_isNone st1]
      exact h0f
    obtain ⟨n2, e2, -, -⟩ := createRuntimeGraph_formula (createRuntimeGraph w).2 h02
    have hdt2 : declaredTasks (createRuntimeGraph w).2 = declaredTasks w := by
      rw [declaredTasks, declaredTasks, sp1]
    have hpp2 : (createRuntimeGraph w).2.spec.params = w.spec.params := by rw [sp1]
    have hstEq : stEquiv (injectIds (createRuntimeGraph w).2.status)
        (injectIds w.status) :=
      stEquiv_trans (stEquiv_injectIds (createRuntimeGraph w).2.status)
        (stEquiv_trans st1 (stEquiv_symm (stEquiv_injectIds w.status)))
    have hcontrib2 : ∀ task,
        taskContribution (createRuntimeGraph w).2.spec.params
          (conditionTaskNames (injectIds (createRuntimeGraph w).2.status)
            (declaredTasks w))
          (injectIds (createRuntimeGraph w).2.status) task =
        taskContribution w.spec.params
          (conditionTaskNames (injectIds w.status) (declaredTasks w))
          (injectIds w.status) task := by
      intro task
      rw [hpp2, conditionTaskNames_congr hstEq (declaredTasks w)]
      exact taskContribution_congr_st hstEq w.spec.params _ task
    have hnodes2 : (createRuntimeGraph (createRuntimeGraph w).2).1.nodes =
        (createRuntimeGraph w).1.nodes := by
      rw [n2, n1, hdt2]
      exact List.flatMap_congr (fun task _ => congrArg Prod.fst (hcontrib2 task))
    have hedges2 : (createRuntimeGraph (createRuntimeGraph w).2).1.edges =
        (createRuntimeGraph w).1.edges := by
      rw [e2, e1, hdt2]
      exact List.flatMap_congr (fun task _ => congrArg Prod.snd (hcontrib2 task))
    refine ⟨⟨?_, ?_⟩, ?_, ?_⟩
    · rw [nodeSet, nodeSet]
      apply List.toFinset_eq_of_perm
      exact (hnodesperm.map some).append (hedgesperm.flatMap_right _)
    · rw [edgeSet, edgeSet]
      exact List.toFinset_eq_of_perm _ _ hedgesperm
    · rw [nodeSet, nodeSet, hnodes2, hedges2]
    · rw [edgeSet, edgeSet, hedges2]

/-- A declared task matching the `P` record. -/
def taskPdecl : Task :=
  { name := "P"
    params := []
    whenClauses := []
    conditions := []
    runAfter := none
    taskSpec := none }

def wGraph : Workflow :=
  { spec :=
      { params := []
        pipelineSpec := { tasks := [taskPdecl, taskAfterQ], finallyTasks := [] } }
    status := stW }

def wGraphPerm : Workflow :=
  { spec :=
      { params := []
        pipelineSpec := { tasks := [taskAfterQ, taskPdecl], finallyTasks := [] } }
    status := stW }

theorem C3_witness :
    (nodeSet (createRuntimeGraph wGraphPerm).1 = nodeSet (createRuntimeGraph wGraph).1 ∧
     edgeSet (createRuntimeGraph wGraphPerm).1 = edgeSet (createRuntimeGraph wGraph).1) ∧
    (nodeSet (createRuntimeGraph (createRuntimeGraph wGraph).2).1 =
       nodeSet (createRuntimeGraph wGraph).1 ∧
     edgeSet (createRuntimeGraph (createRuntimeGraph wGraph).2).1 =
       edgeSet (createRuntimeGraph wGraph).1) :=
  C3_perm_invariant_idempotent wGraph wGraphPerm rfl rfl
    (by rw [declaredTasks, declaredTasks]; decide)

end WorkflowParser
